import Mathlib

/-!
# proxiedhttp: PROXY protocol v2 detection on accepted connections

A shallow embedding of `src/proxiedhttp.go` and `src/conn.go`.

* Bytes are `Fin 256`; `uint16` fields are the natural number `256 * hi + lo`.
* The underlying `net.Conn` is an explicit state: the data segments that will
  still arrive (in order), the error its `Read` reports once they are used up,
  a closed flag, the read deadline and the peer address.
* `bufio.Reader`, `io.ReadFull` and `binary.Read` are embedded from the Go
  standard library, on the pair (reader, underlying connection).
* `Conn.Read`, `Conn.RemoteAddr`, `Conn.scanProxyData` and `Listener.Accept`
  follow the repository source statement by statement.
-/

set_option linter.dupNamespace false

namespace Proxiedhttp

/-- One octet of the byte stream. -/
abbrev Byte := Fin 256

/-- Error values the program can observe: the sentinels of `io` and `bufio`,
the two errors declared by the package, the error of a read on a closed
connection, and any other transport fault (a timeout for instance). -/
inductive Error where
  | EOF
  | ErrUnexpectedEOF
  | ErrBufferFull
  | ErrNoProgress
  | ErrUnsupportedProto
  | ErrMalformedProxyHeader
  | ErrClosed
  | fault (code : Nat)
deriving DecidableEq, Repr

/-- The Go type `net.IP`: a byte slice (length 4 or 16 when valid, 0 for nil). -/
abbrev IP := List Byte

/-- The Go type `net.TCPAddr`. -/
structure TCPAddr where
  IP : IP
  Port : Nat
  Zone : String
deriving DecidableEq, Repr

/-- Signature of protocol version 2 (`v2sig`). -/
def v2sig : List Byte :=
  [0x0D, 0x0A, 0x0D, 0x0A, 0x00, 0x0D, 0x0A, 0x51, 0x55, 0x49, 0x54, 0x0A]

/-- Fixed header (`proxyHdrV2`). -/
structure proxyHdrV2 where
  Sig : List Byte
  VerCmd : Byte
  Fam : Byte
  Len : Nat
deriving DecidableEq, Repr

/-- Address block for TCP over IPv4 (`ip4`). -/
structure ip4 where
  SrcAddr : List Byte
  DstAddr : List Byte
  SrcPort : Nat
  DstPort : Nat
deriving DecidableEq, Repr

/-- Address block for TCP over IPv6 (`ip6`). -/
structure ip6 where
  SrcAddr : List Byte
  DstAddr : List Byte
  SrcPort : Nat
  DstPort : Nat
deriving DecidableEq, Repr

/-- Big-endian `uint16` from two octets (`binary.BigEndian.Uint16`). -/
def be16 (hi lo : Byte) : Nat := 256 * hi.val + lo.val

/-! ## The underlying connection -/

/-- State of the wrapped `net.Conn`. `incoming` lists the data segments that
are still to be delivered, in arrival order; once they are used up every
`Read` reports `final` (`EOF` for an orderly shutdown by the peer). `now` is
the clock reading that `time.Now()` yields. -/
structure NetConn where
  incoming : List (List Byte)
  final : Error
  closed : Bool
  readDeadline : Option Nat
  remoteAddr : TCPAddr
  now : Nat
deriving DecidableEq, Repr

/-- First non-empty segment and the segments after it. -/
def nextSegment : List (List Byte) → Option (List Byte × List (List Byte))
  | [] => none
  | [] :: rest => nextSegment rest
  | (b :: bs) :: rest => some (b :: bs, rest)

/-- `net.Conn.Read` into a slice of length `k`: at most `k` bytes of the first
pending segment, or the terminal error; a closed connection only reports
`ErrClosed`. -/
def NetConn.Read (k : Nat) (n : NetConn) : (List Byte × Option Error) × NetConn :=
  if n.closed then (([], some Error.ErrClosed), n)
  else if k = 0 then (([], none), n)
  else
    match nextSegment n.incoming with
    | none => (([], some n.final), { n with incoming := [] })
    | some (seg, rest) =>
      ((seg.take k, none),
        { n with incoming := if seg.length ≤ k then rest else seg.drop k :: rest })

/-- `net.Conn.Close`. -/
def NetConn.Close (n : NetConn) : NetConn := { n with closed := true }

/-- `net.Conn.SetReadDeadline`. -/
def NetConn.SetReadDeadline (t : Nat) (n : NetConn) : NetConn :=
  { n with readDeadline := some t }

/-! ## bufio.Reader -/

/-- Size of the buffer that `bufio.NewReader` allocates. -/
def defaultBufSize : Nat := 4096

/-- State of a `bufio.Reader`: `buf` is the unread part `b.buf[b.r:b.w]` and
`err` the pending error `b.err`. -/
structure Reader where
  buf : List Byte
  err : Option Error
deriving DecidableEq, Repr

/-- `bufio.NewReader`. -/
def NewReader : Reader := { buf := [], err := none }

/-- `(*bufio.Reader).readErr`: hands out the pending error and clears it. -/
def Reader.readErr (b : Reader) : Option Error × Reader := (b.err, { b with err := none })

/-- `(*bufio.Reader).Buffered`. -/
def Reader.Buffered (b : Reader) : Nat := b.buf.length

/-- `(*bufio.Reader).fill`: one read of the free part of the buffer. The
callers only fill a buffer that is not full. A read that returns neither data
nor an error is retried and ends in `ErrNoProgress`. -/
def Reader.fill (b : Reader) (rd : NetConn) : Reader × NetConn :=
  let r := rd.Read (defaultBufSize - b.buf.length)
  match r.1.2 with
  | some e => ({ buf := b.buf ++ r.1.1, err := some e }, r.2)
  | none =>
    if r.1.1 = [] then ({ buf := b.buf, err := some Error.ErrNoProgress }, r.2)
    else ({ buf := b.buf ++ r.1.1, err := b.err }, r.2)

/-- The filling loop of `Peek`, at most `fuel` rounds. -/
def Reader.peekLoop : Nat → Nat → Reader → NetConn → Reader × NetConn
  | 0, _, b, rd => (b, rd)
  | fuel + 1, n, b, rd =>
    if b.buf.length < n ∧ b.buf.length < defaultBufSize ∧ b.err = none then
      Reader.peekLoop fuel n (b.fill rd).1 (b.fill rd).2
    else (b, rd)

/-- `(*bufio.Reader).Peek`. Every round of the loop buffers a byte or records
an error, so `n` rounds are enough. -/
def Reader.Peek (n : Nat) (b : Reader) (rd : NetConn) :
    (List Byte × Option Error) × Reader × NetConn :=
  let s := Reader.peekLoop n n b rd
  if defaultBufSize < n then ((s.1.buf, some Error.ErrBufferFull), s)
  else if s.1.buf.length < n then
    ((s.1.buf, some (s.1.err.getD Error.ErrBufferFull)), ({ s.1 with err := none }, s.2))
  else ((s.1.buf.take n, none), s)

/-- `(*bufio.Reader).Read` into a slice of length `k`. -/
def Reader.Read (k : Nat) (b : Reader) (rd : NetConn) :
    (List Byte × Option Error) × Reader × NetConn :=
  if k = 0 then
    if 0 < b.buf.length then (([], none), (b, rd))
    else (([], b.err), ({ b with err := none }, rd))
  else if b.buf = [] then
    match b.err with
    | some e => (([], some e), ({ b with err := none }, rd))
    | none =>
      if defaultBufSize ≤ k then
        let r := rd.Read k
        ((r.1.1, r.1.2), ({ buf := [], err := none }, r.2))
      else
        let r := rd.Read defaultBufSize
        if r.1.1 = [] then (([], r.1.2), ({ buf := [], err := none }, r.2))
        else ((r.1.1.take k, none), ({ buf := r.1.1.drop k, err := r.1.2 }, r.2))
  else ((b.buf.take k, none), ({ b with buf := b.buf.drop k }, rd))

/-- The loop of `io.ReadAtLeast`: `acc` is what has been read so far. -/
def readAtLeastLoop : Nat → Nat → List Byte → Reader → NetConn →
    (List Byte × Option Error) × Reader × NetConn
  | 0, _, acc, b, rd => ((acc, none), (b, rd))
  | fuel + 1, min, acc, b, rd =>
    if acc.length < min then
      let r := Reader.Read (min - acc.length) b rd
      match r.1.2 with
      | none => readAtLeastLoop fuel min (acc ++ r.1.1) r.2.1 r.2.2
      | some e => ((acc ++ r.1.1, some e), r.2)
    else ((acc, none), (b, rd))

/-- `io.ReadFull` for a slice of length `size`. Every round of the loop reads
a byte or ends with an error, so `size` rounds are enough. -/
def ReadFull (size : Nat) (b : Reader) (rd : NetConn) :
    (List Byte × Option Error) × Reader × NetConn :=
  let r := readAtLeastLoop size size [] b rd
  if size ≤ r.1.1.length then ((r.1.1, none), r.2)
  else if 0 < r.1.1.length ∧ r.1.2 = some Error.EOF then
    ((r.1.1, some Error.ErrUnexpectedEOF), r.2)
  else r

/-- The loop of `Discard`; the first component is what remains to be skipped. -/
def Reader.discardLoop : Nat → Nat → Reader → NetConn → (Nat × Option Error) × Reader × NetConn
  | 0, remain, b, rd => ((remain, none), (b, rd))
  | fuel + 1, remain, b, rd =>
    let s := if b.buf.length = 0 then b.fill rd else (b, rd)
    let skip := min s.1.buf.length remain
    let b1 : Reader := { s.1 with buf := s.1.buf.drop skip }
    if remain - skip = 0 then ((0, none), (b1, s.2))
    else if b1.err ≠ none then ((remain - skip, b1.err), ({ b1 with err := none }, s.2))
    else Reader.discardLoop fuel (remain - skip) b1 s.2

/-- `(*bufio.Reader).Discard`: number of bytes skipped and the error. -/
def Reader.Discard (n : Nat) (b : Reader) (rd : NetConn) :
    (Nat × Option Error) × Reader × NetConn :=
  if n = 0 then ((0, none), (b, rd))
  else
    let r := Reader.discardLoop n n b rd
    ((n - r.1.1, r.1.2), r.2)

/-! ## encoding/binary -/

/-- Decoding of the 16 octets of a `proxyHdrV2`. -/
def decodeHdr (d : List Byte) : proxyHdrV2 :=
  { Sig := d.take 12, VerCmd := d.getD 12 0, Fam := d.getD 13 0,
    Len := be16 (d.getD 14 0) (d.getD 15 0) }

/-- Decoding of the 12 octets of an `ip4`. -/
def decodeIp4 (d : List Byte) : ip4 :=
  { SrcAddr := d.take 4, DstAddr := (d.drop 4).take 4,
    SrcPort := be16 (d.getD 8 0) (d.getD 9 0), DstPort := be16 (d.getD 10 0) (d.getD 11 0) }

/-- Decoding of the 36 octets of an `ip6`. -/
def decodeIp6 (d : List Byte) : ip6 :=
  { SrcAddr := d.take 16, DstAddr := (d.drop 16).take 16,
    SrcPort := be16 (d.getD 32 0) (d.getD 33 0), DstPort := be16 (d.getD 34 0) (d.getD 35 0) }

/-! ## conn.go -/

/-- The type `Conn`: the wrapped connection, its buffered reader, the decoded
addresses, the trust flag, the header timeout and the `sync.Once` gate
(`once` is true when the gate has fired). -/
structure Conn where
  Conn : NetConn
  Reader : Reader
  srcAddr : Option TCPAddr
  dstAddr : Option TCPAddr
  useRemoteAddress : Bool
  readTimeout : Nat
  once : Bool
deriving DecidableEq, Repr

/-- `Conn.Close`, promoted from the embedded `net.Conn`. -/
def Close (c : Conn) : Conn := { c with Conn := c.Conn.Close }

/-- The method `scanProxyData`. -/
def scanProxyData (c : Conn) : Option Error × Conn :=
  let c0 : Conn :=
    if c.readTimeout ≠ 0 then
      { c with Conn := c.Conn.SetReadDeadline (c.Conn.now + c.readTimeout) }
    else c
  let p := c0.Reader.Peek v2sig.length c0.Conn
  let c1 : Conn := { c0 with Reader := p.2.1, Conn := p.2.2 }
  match p.1.2 with
  | some e => if e = Error.ErrBufferFull then (none, c1) else (some e, c1)
  | none =>
    if p.1.1 ≠ v2sig then (none, c1)
    else
      let h := ReadFull 16 c1.Reader c1.Conn
      let c2 : Conn := { c1 with Reader := h.2.1, Conn := h.2.2 }
      match h.1.2 with
      | some e => (some e, Close c2)
      | none =>
        let header := decodeHdr h.1.1
        if header.VerCmd = 0x20 then (none, c2)
        else if header.VerCmd = 0x21 then
          if header.Fam = 0x11 then
            let a := ReadFull 12 c2.Reader c2.Conn
            let c3 : Conn := { c2 with Reader := a.2.1, Conn := a.2.2 }
            match a.1.2 with
            | some e =>
              if e = Error.ErrUnexpectedEOF then (some Error.ErrMalformedProxyHeader, Close c3)
              else (some e, Close c3)
            | none =>
              let addr := decodeIp4 a.1.1
              (none, { c3 with
                srcAddr := some { IP := addr.SrcAddr, Port := addr.SrcPort, Zone := "" },
                dstAddr := some { IP := addr.DstAddr, Port := addr.DstPort, Zone := "" } })
          else if header.Fam = 0x21 then
            let a := ReadFull 36 c2.Reader c2.Conn
            let c3 : Conn := { c2 with Reader := a.2.1, Conn := a.2.2 }
            match a.1.2 with
            | some e =>
              if e = Error.ErrUnexpectedEOF then (some Error.ErrMalformedProxyHeader, Close c3)
              else (some e, Close c3)
            | none =>
              let addr := decodeIp6 a.1.1
              (none, { c3 with
                srcAddr := some { IP := addr.SrcAddr, Port := addr.SrcPort, Zone := "" },
                dstAddr := some { IP := addr.DstAddr, Port := addr.DstPort, Zone := "" } })
          else
            let hdrLen := header.Len
            if hdrLen < c2.Reader.Buffered then (some Error.ErrMalformedProxyHeader, Close c2)
            else
              let d := c2.Reader.Discard header.Len c2.Conn
              (none, { c2 with Reader := d.2.1, Conn := d.2.2 })
        else (some Error.ErrUnsupportedProto, c2)

/-- The gate `c.once.Do(func() { err = c.scanProxyData() })`: the scan runs
only when the gate has not fired; otherwise `err` keeps its zero value. -/
def onceDo (c : Conn) : Option Error × Conn :=
  if c.once then (none, c)
  else ((scanProxyData c).1, { (scanProxyData c).2 with once := true })

/-- The method `Read` with a slice of length `k`. -/
def Read (k : Nat) (c : Conn) : (List Byte × Option Error) × Conn :=
  let g := onceDo c
  match g.1 with
  | some e => (([], some e), g.2)
  | none =>
    let r := g.2.Reader.Read k g.2.Conn
    (r.1, { g.2 with Reader := r.2.1, Conn := r.2.2 })

/-- The method `RemoteAddr`; `none` is the nil address. -/
def RemoteAddr (c : Conn) : Option TCPAddr × Conn :=
  let g := onceDo c
  match g.1 with
  | some _ => (none, g.2)
  | none =>
    if g.2.srcAddr ≠ none ∧ g.2.useRemoteAddress = true then (g.2.srcAddr, g.2)
    else (some g.2.Conn.remoteAddr, g.2)

/-! ## proxiedhttp.go: the listener -/

/-- The constant `v4InV6Prefix` of package `net`. -/
def v4InV6Prefix : List Byte := [0, 0, 0, 0, 0, 0, 0, 0, 0, 0, 0xff, 0xff]

/-- The method `net.IP.Equal`: an IPv4 address and its IPv6 form are equal. -/
def IPEqual (ip x : IP) : Bool :=
  if ip.length = x.length then decide (ip = x)
  else if ip.length = 4 ∧ x.length = 16 then
    decide (x.take 12 = v4InV6Prefix) && decide (ip = x.drop 12)
  else if ip.length = 16 ∧ x.length = 4 then
    decide (ip.take 12 = v4InV6Prefix) && decide (ip.drop 12 = x)
  else false

/-- The raw peer IP that `Accept` derives from the accepted connection:
`net.ParseIP` of the host part of `conn.RemoteAddr().String()`. Printing and
parsing give back the 16-byte form of a valid address without zone, and nil
(the empty slice) in every other case. -/
def rawPeerIP (a : TCPAddr) : IP :=
  if a.Zone = "" then
    if a.IP.length = 4 then v4InV6Prefix ++ a.IP
    else if a.IP.length = 16 then a.IP
    else []
  else []

/-- The loop over `l.AuthSources` in `Accept`: `u` is `useRemAddr`. -/
def authLoop (rAddr : IP) : List IP → Bool → Bool
  | [], u => u
  | addr :: rest, u => if IPEqual addr rAddr then true else authLoop rAddr rest u

/-- The wrapped `net.Listener`: `next` is what its `Accept` returns. -/
structure NetListener where
  next : Except Error NetConn

/-- The type `Listener`; `AuthSources = none` is the nil slice. -/
structure Listener where
  Listener : NetListener
  ReadTimeout : Nat
  AuthSources : Option (List IP)

/-- The method `Accept`. -/
def Accept (l : Listener) : Except Error Conn :=
  match l.Listener.next with
  | .error e => .error e
  | .ok conn =>
    let useRemAddr : Bool :=
      match l.AuthSources with
      | some srcs => authLoop (rawPeerIP conn.remoteAddr) srcs false
      | none => true
    .ok { Conn := conn, useRemoteAddress := useRemAddr, Reader := NewReader,
          readTimeout := l.ReadTimeout, srcAddr := none, dstAddr := none, once := false }

/-! ## Callers -/

/-- A caller that reads the connection to its end: `Read` with a slice of
length `k`, again and again until it reports an error (at most `fuel` calls).
The result is everything delivered, in order, and the error that ended it. -/
def readAll (k : Nat) : Nat → Conn → (List Byte × Option Error) × Conn
  | 0, c => (([], none), c)
  | fuel + 1, c =>
    match (Read k c).1.2 with
    | some e => (((Read k c).1.1, some e), (Read k c).2)
    | none =>
      let r := readAll k fuel (Read k c).2
      (((Read k c).1.1 ++ r.1.1, r.1.2), r.2)

/-- The bytes that the connection still has to deliver: what the reader has
buffered followed by what the transport has pending. -/
def pending (c : Conn) : List Byte := c.Reader.buf ++ c.Conn.incoming.flatten

/-- A connection as `Accept` builds it, on an open transport. -/
def fresh (c : Conn) : Prop :=
  c.Reader = NewReader ∧ c.Conn.closed = false ∧ c.srcAddr = none ∧ c.dstAddr = none ∧
    c.once = false

instance (c : Conn) : Decidable (fresh c) := by unfold fresh; infer_instance

/-- The statements of `scanProxyData` that follow the decoding of the fixed
header, as a function of the header and of the connection at that point. It
only serves to state lemmas: `scan_header` proves that the scan equals it. -/
def afterHeader (header : proxyHdrV2) (c2 : Conn) : Option Error × Conn :=
  if header.VerCmd = 0x20 then (none, c2)
  else if header.VerCmd = 0x21 then
    if header.Fam = 0x11 then
      let a := ReadFull 12 c2.Reader c2.Conn
      let c3 : Conn := { c2 with Reader := a.2.1, Conn := a.2.2 }
      match a.1.2 with
      | some e =>
        if e = Error.ErrUnexpectedEOF then (some Error.ErrMalformedProxyHeader, Close c3)
        else (some e, Close c3)
      | none =>
        let addr := decodeIp4 a.1.1
        (none, { c3 with
          srcAddr := some { IP := addr.SrcAddr, Port := addr.SrcPort, Zone := "" },
          dstAddr := some { IP := addr.DstAddr, Port := addr.DstPort, Zone := "" } })
    else if header.Fam = 0x21 then
      let a := ReadFull 36 c2.Reader c2.Conn
      let c3 : Conn := { c2 with Reader := a.2.1, Conn := a.2.2 }
      match a.1.2 with
      | some e =>
        if e = Error.ErrUnexpectedEOF then (some Error.ErrMalformedProxyHeader, Close c3)
        else (some e, Close c3)
      | none =>
        let addr := decodeIp6 a.1.1
        (none, { c3 with
          srcAddr := some { IP := addr.SrcAddr, Port := addr.SrcPort, Zone := "" },
          dstAddr := some { IP := addr.DstAddr, Port := addr.DstPort, Zone := "" } })
    else
      let hdrLen := header.Len
      if hdrLen < c2.Reader.Buffered then (some Error.ErrMalformedProxyHeader, Close c2)
      else
        let d := c2.Reader.Discard header.Len c2.Conn
        (none, { c2 with Reader := d.2.1, Conn := d.2.2 })
  else (some Error.ErrUnsupportedProto, c2)

/-- The connection `c1` is `c` up to the reader, the pending segments and the
read deadline: the fields that the scan may change before it decodes an
address or closes the connection. -/
def sameConn (c c1 : Conn) : Prop :=
  c1.srcAddr = c.srcAddr ∧ c1.dstAddr = c.dstAddr ∧
    c1.useRemoteAddress = c.useRemoteAddress ∧ c1.readTimeout = c.readTimeout ∧
    c1.once = c.once ∧ c1.Conn.final = c.Conn.final ∧ c1.Conn.closed = c.Conn.closed ∧
    c1.Conn.remoteAddr = c.Conn.remoteAddr ∧ c1.Conn.now = c.Conn.now

/-- The transport is open, the reader has no pending error, and together they
still have to deliver exactly `s` (buffered bytes first). -/
def Ready (b : Reader) (rd : NetConn) (s : List Byte) : Prop :=
  rd.closed = false ∧ b.err = none ∧ b.buf ++ rd.incoming.flatten = s

/-- The two transport states differ at most in the pending segments. -/
def sameLink (rd rd1 : NetConn) : Prop :=
  rd1.final = rd.final ∧ rd1.closed = rd.closed ∧ rd1.readDeadline = rd.readDeadline ∧
    rd1.remoteAddr = rd.remoteAddr ∧ rd1.now = rd.now

/-! ## Concrete connections -/

/-- The request line `GET / HTTP/1.1` with its line end, 16 octets. -/
def httpGet : List Byte :=
  [0x47, 0x45, 0x54, 0x20, 0x2F, 0x20, 0x48, 0x54, 0x54, 0x50, 0x2F, 0x31, 0x2E, 0x31,
    0x0D, 0x0A]

/-- An open transport from peer 192.0.2.7:40000 that delivers the given
segments and then ends in an orderly way. -/
def transportOf (segs : List (List Byte)) : NetConn :=
  { incoming := segs, final := Error.EOF, closed := false, readDeadline := none,
    remoteAddr := { IP := [192, 0, 2, 7], Port := 40000, Zone := "" }, now := 0 }

/-- The connection that `Accept` builds on `transportOf segs`, without header
timeout. -/
def connOf (segs : List (List Byte)) (trust : Bool) : Conn :=
  { Conn := transportOf segs, Reader := NewReader, srcAddr := none, dstAddr := none,
    useRemoteAddress := trust, readTimeout := 0, once := false }

/-- PROXY header for TCP over IPv4, 10.0.0.5:1234 to 10.0.0.1:80, declared
length 12, followed by the request line. -/
def tcp4Example : List Byte :=
  v2sig ++ [0x21, 0x11, 0x00, 0x0C] ++
    [10, 0, 0, 5, 10, 0, 0, 1, 0x04, 0xD2, 0x00, 0x50] ++ httpGet

/-- PROXY header for TCP over IPv4 with declared length 13: the address block
and one extension octet `0xEE`, followed by the payload `G`. -/
def tcp4TlvExample : List Byte :=
  v2sig ++ [0x21, 0x11, 0x00, 0x0D] ++
    [10, 0, 0, 5, 10, 0, 0, 1, 0x04, 0xD2, 0x00, 0x50] ++ [0xEE] ++ [0x47]

/-- LOCAL header with declared length 1: one header octet `0xEE`, followed by
the payload `G`. -/
def localExample : List Byte := v2sig ++ [0x20, 0x00, 0x00, 0x01] ++ [0xEE] ++ [0x47]

/-- PROXY header of the unspecified family `0x00` with declared length 2: two
octets to discard, followed by the payload `G`. -/
def unspecExample : List Byte := v2sig ++ [0x21, 0x00, 0x00, 0x02] ++ [0xAA, 0xBB] ++ [0x47]

/-- The signature and one more octet: a fixed header cut short. -/
def truncatedExample : List Byte := v2sig ++ [0x21]

/-- A listener with the given authorized sources whose next accepted
connection is `transportOf segs`. -/
def listenerOf (auth : Option (List IP)) (segs : List (List Byte)) : Listener :=
  { Listener := { next := Except.ok (transportOf segs) }, ReadTimeout := 0, AuthSources := auth }

/-! ## Sequences of calls -/

/-- A call of the caller on the connection: `Read` with a slice of length `k`,
or `RemoteAddr`. -/
inductive Call where
  | read (k : Nat)
  | remoteAddr
deriving DecidableEq, Repr

/-- What a call hands back: the bytes and the error of a `Read`, or the
address of a `RemoteAddr`. -/
inductive Reply where
  | bytes (bs : List Byte) (err : Option Error)
  | addr (a : Option TCPAddr)
deriving DecidableEq, Repr

/-- One call on the connection. -/
def call : Call → Conn → Reply × Conn
  | Call.read k, c => (Reply.bytes (Read k c).1.1 (Read k c).1.2, (Read k c).2)
  | Call.remoteAddr, c => (Reply.addr (RemoteAddr c).1, (RemoteAddr c).2)

/-- A sequence of calls, one after the other, on the same connection. -/
def calls : List Call → Conn → List Reply × Conn
  | [], c => ([], c)
  | x :: xs, c => ((call x c).1 :: (calls xs (call x c).2).1, (calls xs (call x c).2).2)

/-- The body of a call below the gate: a read of the buffered reader, or the
choice between the recorded source address and the peer address. It runs no
scan and leaves the recorded addresses alone. -/
def plainCall : Call → Conn → Reply × Conn
  | Call.read k, c =>
    (Reply.bytes (c.Reader.Read k c.Conn).1.1 (c.Reader.Read k c.Conn).1.2,
      { c with Reader := (c.Reader.Read k c.Conn).2.1, Conn := (c.Reader.Read k c.Conn).2.2 })
  | Call.remoteAddr, c =>
    (Reply.addr (if c.srcAddr ≠ none ∧ c.useRemoteAddress = true then c.srcAddr
      else some c.Conn.remoteAddr), c)

/-- A sequence of call bodies below the gate. -/
def plainCalls : List Call → Conn → List Reply × Conn
  | [], c => ([], c)
  | x :: xs, c =>
    ((plainCall x c).1 :: (plainCalls xs (plainCall x c).2).1,
      (plainCalls xs (plainCall x c).2).2)

/-- The reply of a call whose scan failed with `e`. -/
def failedReply : Call → Error → Reply
  | Call.read _, e => Reply.bytes [] (some e)
  | Call.remoteAddr, _ => Reply.addr none

/-- The bytes that a list of replies hands to the caller, in order. -/
def delivered : List Reply → List Byte
  | [] => []
  | Reply.bytes bs _ :: rs => bs ++ delivered rs
  | Reply.addr _ :: rs => delivered rs

/-! ## More concrete connections -/

/-- A second PROXY header for TCP over IPv4, 172.16.0.9:4321 to
172.16.0.1:443. -/
def secondHeader : List Byte :=
  v2sig ++ [0x21, 0x11, 0x00, 0x0C] ++ [172, 16, 0, 9, 172, 16, 0, 1, 0x10, 0xE1, 0x01, 0xBB]

/-- The stream of `tcp4Example` with `secondHeader` between the first header
and the request line. -/
def twoHeadersExample : List Byte :=
  v2sig ++ [0x21, 0x11, 0x00, 0x0C] ++
    [10, 0, 0, 5, 10, 0, 0, 1, 0x04, 0xD2, 0x00, 0x50] ++ (secondHeader ++ httpGet)

/-- PROXY header for TCP over IPv6, `2001:db8::5` port 1234 to `2001:db8::1`
port 80, followed by the request line. -/
def tcp6Example : List Byte :=
  v2sig ++ [0x21, 0x21, 0x00, 0x24] ++
    ([0x20, 0x01, 0x0d, 0xb8, 0, 0, 0, 0, 0, 0, 0, 0, 0, 0, 0, 5] ++
      [0x20, 0x01, 0x0d, 0xb8, 0, 0, 0, 0, 0, 0, 0, 0, 0, 0, 0, 1] ++
      [0x04, 0xD2, 0x00, 0x50]) ++ httpGet

/-- A fixed header with the command octet `0x22`, followed by the payload
`G`. -/
def badCommandExample : List Byte := v2sig ++ [0x22, 0x11, 0x00, 0x00] ++ [0x47]

/-- The connection `connOf segs true` with a header timeout, at clock reading
1000 and without read deadline. -/
def timedConnOf (segs : List (List Byte)) (timeout : Nat) : Conn :=
  { Conn := { transportOf segs with now := 1000 }, Reader := NewReader, srcAddr := none,
    dstAddr := none, useRemoteAddress := true, readTimeout := timeout, once := false }

/-- The address `fe80::1`, 16 octets. -/
def linkLocal : IP := [0xfe, 0x80, 0, 0, 0, 0, 0, 0, 0, 0, 0, 0, 0, 0, 0, 1]

/-- The connection that `Accept` builds on an open transport without data
whose peer is `fe80::1%eth0`, port 40000. -/
def zonedConnOf (trust : Bool) : Conn :=
  { Conn := { transportOf [] with
      remoteAddr := { IP := linkLocal, Port := 40000, Zone := "eth0" } },
    Reader := NewReader, srcAddr := none, dstAddr := none, useRemoteAddress := trust,
    readTimeout := 0, once := false }

/-- A listener with the given authorized sources whose next accepted
connection comes from the peer `fe80::1%eth0`. -/
def zonedListenerOf (auth : Option (List IP)) : Listener :=
  { Listener := { next := Except.ok (zonedConnOf true).Conn }, ReadTimeout := 0,
    AuthSources := auth }

/-- The 28 octets of the header of `tcp4Example`, without payload. -/
def tcp4Header : List Byte :=
  v2sig ++ [0x21, 0x11, 0x00, 0x0C] ++ [10, 0, 0, 5, 10, 0, 0, 1, 0x04, 0xD2, 0x00, 0x50]

/-- The contract of `SetReadDeadline` in package `net`: a `Read` that is
still waiting for data at time `t` fails with a timeout when a read deadline is
set and `t` is after it. -/
def NetConn.timesOutAt (t : Nat) (n : NetConn) : Bool :=
  match n.readDeadline with
  | some d => decide (d < t)
  | none => false

/-! ## Frame of the reader operations

None of the operations on the buffered reader closes the transport or touches
its terminal error, deadline, peer address or clock: only `incoming` moves. -/

theorem sameLink_refl (rd : NetConn) : sameLink rd rd := ⟨rfl, rfl, rfl, rfl, rfl⟩

theorem sameLink_trans {a b c : NetConn} (h1 : sameLink a b) (h2 : sameLink b c) :
    sameLink a c := by
  obtain ⟨h11, h12, h13, h14, h15⟩ := h1
  obtain ⟨h21, h22, h23, h24, h25⟩ := h2
  exact ⟨h21.trans h11, h22.trans h12, h23.trans h13, h24.trans h14, h25.trans h15⟩

theorem nextSegment_none {l : List (List Byte)} (h : nextSegment l = none) :
    l.flatten = [] := by
  induction l with
  | nil => rfl
  | cons seg rest ih =>
    cases seg with
    | nil => simpa [nextSegment] using ih (by simpa [nextSegment] using h)
    | cons b bs => simp [nextSegment] at h

theorem nextSegment_some {l : List (List Byte)} {seg : List Byte} {rest : List (List Byte)}
    (h : nextSegment l = some (seg, rest)) : seg ≠ [] ∧ l.flatten = seg ++ rest.flatten := by
  induction l with
  | nil => simp [nextSegment] at h
  | cons x xs ih =>
    cases x with
    | nil => simpa [nextSegment] using ih (by simpa [nextSegment] using h)
    | cons b bs =>
      simp only [nextSegment, Option.some.injEq, Prod.mk.injEq] at h
      obtain ⟨h1, h2⟩ := h
      subst h1 h2
      simp

theorem NetConn.Read_link (k : Nat) (rd : NetConn) : sameLink rd (rd.Read k).2 := by
  unfold NetConn.Read
  split
  · exact sameLink_refl rd
  · split
    · exact sameLink_refl rd
    · split <;> exact ⟨rfl, rfl, rfl, rfl, rfl⟩

/-- A read on an open transport with pending data: a non-empty piece of at
most `k` bytes from the front of the pending data, which stays in order. -/
theorem NetConn.Read_data {rd : NetConn} {k : Nat} (hc : rd.closed = false) (hk : 0 < k)
    (hne : rd.incoming.flatten ≠ []) :
    (rd.Read k).1.2 = none ∧ (rd.Read k).1.1 ≠ [] ∧ (rd.Read k).1.1.length ≤ k ∧
      (rd.Read k).1.1 ++ (rd.Read k).2.incoming.flatten = rd.incoming.flatten := by
  unfold NetConn.Read
  have hk0 : k ≠ 0 := by omega
  simp only [hc, hk0, if_false, Bool.false_eq_true]
  cases hseg : nextSegment rd.incoming with
  | none => exact absurd (nextSegment_none hseg) hne
  | some p =>
    obtain ⟨seg, rest⟩ := p
    obtain ⟨hs1, hs2⟩ := nextSegment_some hseg
    dsimp only
    refine ⟨rfl, ?_, ?_, ?_⟩
    · intro h0
      have hl : (List.take k seg).length = 0 := by rw [h0]; rfl
      have hpos : 0 < seg.length := List.length_pos.mpr hs1
      rw [List.length_take] at hl
      omega
    · simp only [List.length_take]; omega
    · rw [hs2]
      by_cases hle : seg.length ≤ k
      · simp only [hle, if_true, List.take_of_length_le hle]
      · simp only [hle, if_false, List.flatten_cons, ← List.append_assoc,
          List.take_append_drop]

/-- A read on an open transport without pending data reports the terminal
error. -/
theorem NetConn.Read_final {rd : NetConn} {k : Nat} (hc : rd.closed = false) (hk : 0 < k)
    (he : rd.incoming.flatten = []) :
    (rd.Read k).1 = ([], some rd.final) ∧ (rd.Read k).2.incoming.flatten = [] := by
  unfold NetConn.Read
  have hk0 : k ≠ 0 := by omega
  simp only [hc, hk0, if_false, Bool.false_eq_true]
  cases hseg : nextSegment rd.incoming with
  | none => exact ⟨rfl, rfl⟩
  | some p =>
    obtain ⟨seg, rest⟩ := p
    obtain ⟨hs1, hs2⟩ := nextSegment_some hseg
    rw [he] at hs2
    exact absurd (List.append_eq_nil.mp hs2.symm).1 hs1

theorem Reader.fill_sameLink (b : Reader) (rd : NetConn) : sameLink rd (b.fill rd).2 := by
  unfold Reader.fill
  have h := NetConn.Read_link (defaultBufSize - b.buf.length) rd
  dsimp only
  split
  · exact h
  · split <;> exact h

theorem Reader.peekLoop_sameLink (fuel n : Nat) (b : Reader) (rd : NetConn) :
    sameLink rd (Reader.peekLoop fuel n b rd).2 := by
  induction fuel generalizing b rd with
  | zero => exact sameLink_refl rd
  | succ f ih =>
    unfold Reader.peekLoop
    split
    · exact sameLink_trans (Reader.fill_sameLink b rd) (ih _ _)
    · exact sameLink_refl rd

theorem Reader.Peek_sameLink (n : Nat) (b : Reader) (rd : NetConn) :
    sameLink rd (Reader.Peek n b rd).2.2 := by
  unfold Reader.Peek
  have h := Reader.peekLoop_sameLink n n b rd
  simp only
  split
  · exact h
  · split <;> exact h

theorem Reader.Read_sameLink (k : Nat) (b : Reader) (rd : NetConn) :
    sameLink rd (Reader.Read k b rd).2.2 := by
  unfold Reader.Read
  split
  · split <;> exact sameLink_refl rd
  · split
    · split
      · exact sameLink_refl rd
      · split
        · exact NetConn.Read_link _ rd
        · simp only
          split <;> exact NetConn.Read_link _ rd
    · exact sameLink_refl rd

theorem readAtLeastLoop_sameLink (fuel m : Nat) (acc : List Byte) (b : Reader) (rd : NetConn) :
    sameLink rd (readAtLeastLoop fuel m acc b rd).2.2 := by
  induction fuel generalizing acc b rd with
  | zero => exact sameLink_refl rd
  | succ f ih =>
    unfold readAtLeastLoop
    split
    · simp only
      split
      · exact sameLink_trans (Reader.Read_sameLink _ b rd) (ih _ _ _)
      · exact Reader.Read_sameLink _ b rd
    · exact sameLink_refl rd

theorem ReadFull_sameLink (size : Nat) (b : Reader) (rd : NetConn) :
    sameLink rd (ReadFull size b rd).2.2 := by
  unfold ReadFull
  have h := readAtLeastLoop_sameLink size size [] b rd
  simp only
  split
  · exact h
  · split <;> exact h

theorem Reader.discardLoop_sameLink (fuel r : Nat) (b : Reader) (rd : NetConn) :
    sameLink rd (Reader.discardLoop fuel r b rd).2.2 := by
  induction fuel generalizing r b rd with
  | zero => exact sameLink_refl rd
  | succ f ih =>
    unfold Reader.discardLoop
    have hs : sameLink rd (if b.buf.length = 0 then b.fill rd else (b, rd)).2 := by
      split
      · exact Reader.fill_sameLink b rd
      · exact sameLink_refl rd
    dsimp only
    generalize (if b.buf.length = 0 then b.fill rd else (b, rd)) = s at hs ⊢
    split
    · exact hs
    · split
      · exact hs
      · exact sameLink_trans hs (ih _ _ _)

theorem Reader.Discard_sameLink (n : Nat) (b : Reader) (rd : NetConn) :
    sameLink rd (Reader.Discard n b rd).2.2 := by
  unfold Reader.Discard
  split
  · exact sameLink_refl rd
  · exact Reader.discardLoop_sameLink n n b rd

/-! ## The reader on an open transport with data at hand -/

theorem Reader.fill_ready {b : Reader} {rd : NetConn} {s : List Byte} (h : Ready b rd s)
    (hsz : b.buf.length < defaultBufSize) (hlt : b.buf.length < s.length) :
    Ready (b.fill rd).1 (b.fill rd).2 s ∧ b.buf.length < (b.fill rd).1.buf.length := by
  obtain ⟨hc, he, hs⟩ := h
  have hne : rd.incoming.flatten ≠ [] := by
    intro h0
    rw [h0, List.append_nil] at hs
    rw [← hs] at hlt
    omega
  have hk : 0 < defaultBufSize - b.buf.length := by omega
  obtain ⟨h1, h2, _, h4⟩ := NetConn.Read_data hc hk hne
  have hcl := (NetConn.Read_link (defaultBufSize - b.buf.length) rd).2.1
  have hpos : 0 < ((rd.Read (defaultBufSize - b.buf.length)).1.1).length :=
    List.length_pos.mpr h2
  unfold Reader.fill
  simp only [h1, h2, if_false]
  refine ⟨⟨hcl.trans hc, he, ?_⟩, ?_⟩
  · rw [List.append_assoc, h4, hs]
  · rw [List.length_append]; omega

theorem Reader.peekLoop_ready (fuel n : Nat) {b : Reader} {rd : NetConn} {s : List Byte}
    (h : Ready b rd s) (hn : n ≤ s.length) (hsz : n ≤ defaultBufSize)
    (hf : n ≤ b.buf.length + fuel) :
    Ready (Reader.peekLoop fuel n b rd).1 (Reader.peekLoop fuel n b rd).2 s ∧
      n ≤ (Reader.peekLoop fuel n b rd).1.buf.length := by
  induction fuel generalizing b rd with
  | zero => exact ⟨h, by simpa using hf⟩
  | succ f ih =>
    unfold Reader.peekLoop
    by_cases hlt : b.buf.length < n
    · have hcond : b.buf.length < n ∧ b.buf.length < defaultBufSize ∧ b.err = none :=
        ⟨hlt, by omega, h.2.1⟩
      rw [if_pos hcond]
      obtain ⟨hr, hgrow⟩ := Reader.fill_ready h (by omega) (by omega)
      exact ih hr (by omega)
    · have hcond : ¬ (b.buf.length < n ∧ b.buf.length < defaultBufSize ∧ b.err = none) :=
        fun hc => hlt hc.1
      rw [if_neg hcond]
      exact ⟨h, Nat.le_of_not_lt hlt⟩

/-- `Peek n` with at least `n` bytes to come returns the first `n` of them and
consumes nothing. -/
theorem Reader.Peek_ready (n : Nat) {b : Reader} {rd : NetConn} {s : List Byte}
    (h : Ready b rd s) (hn : n ≤ s.length) (hsz : n ≤ defaultBufSize) :
    (Reader.Peek n b rd).1 = (s.take n, none) ∧
      Ready (Reader.Peek n b rd).2.1 (Reader.Peek n b rd).2.2 s := by
  obtain ⟨hr, hlen⟩ := Reader.peekLoop_ready n n h hn hsz (by omega)
  unfold Reader.Peek
  have h1 : ¬ defaultBufSize < n := by omega
  have h2 : ¬ (Reader.peekLoop n n b rd).1.buf.length < n := by omega
  simp only [h1, h2, if_false]
  refine ⟨?_, hr⟩
  rw [← hr.2.2, List.take_append_of_le_length hlen]

/-- A read of the buffered reader with data to come: a non-empty piece of at
most `k` bytes from the front, the rest stays to be delivered. -/
theorem Reader.Read_ready {k : Nat} {b : Reader} {rd : NetConn} {s : List Byte}
    (h : Ready b rd s) (hk : 0 < k) (hne : s ≠ []) :
    (Reader.Read k b rd).1.2 = none ∧ (Reader.Read k b rd).1.1 ≠ [] ∧
      (Reader.Read k b rd).1.1.length ≤ k ∧
      ∃ t, (Reader.Read k b rd).1.1 ++ t = s ∧
        Ready (Reader.Read k b rd).2.1 (Reader.Read k b rd).2.2 t := by
  obtain ⟨hc, he, hs⟩ := h
  have hk0 : k ≠ 0 := by omega
  unfold Reader.Read
  rw [if_neg hk0]
  by_cases hb : b.buf = []
  · rw [if_pos hb, he]
    dsimp only
    have hflat : rd.incoming.flatten = s := by rw [hb] at hs; simpa using hs
    have hne2 : rd.incoming.flatten ≠ [] := by rw [hflat]; exact hne
    by_cases hbig : defaultBufSize ≤ k
    · rw [if_pos hbig]
      obtain ⟨h1, h2, h3, h4⟩ := NetConn.Read_data hc hk hne2
      have hcl := (NetConn.Read_link k rd).2.1
      exact ⟨h1, h2, h3, _, h4.trans hflat, hcl.trans hc, rfl, rfl⟩
    · rw [if_neg hbig]
      have hd : 0 < defaultBufSize := by decide
      obtain ⟨h1, h2, h3, h4⟩ := NetConn.Read_data hc hd hne2
      have hcl := (NetConn.Read_link defaultBufSize rd).2.1
      rw [if_neg h2]
      have hpos : 0 < ((rd.Read defaultBufSize).1.1).length := List.length_pos.mpr h2
      dsimp only
      refine ⟨rfl, ?_, ?_, _, ?_, hcl.trans hc, h1, rfl⟩
      · intro h0
        have hl : (List.take k (rd.Read defaultBufSize).1.1).length = 0 := by rw [h0]; rfl
        rw [List.length_take] at hl
        omega
      · rw [List.length_take]; omega
      · rw [← List.append_assoc, List.take_append_drop, h4, hflat]
  · rw [if_neg hb]
    have hpos : 0 < b.buf.length := List.length_pos.mpr hb
    dsimp only
    refine ⟨rfl, ?_, ?_, _, ?_, hc, he, rfl⟩
    · intro h0
      have hl : (List.take k b.buf).length = 0 := by rw [h0]; rfl
      rw [List.length_take] at hl
      omega
    · rw [List.length_take]; omega
    · rw [← List.append_assoc, List.take_append_drop, hs]

/-- A read of the buffered reader when nothing is left: the terminal error of
the transport. -/
theorem Reader.Read_end {k : Nat} {b : Reader} {rd : NetConn}
    (h : Ready b rd []) (hk : 0 < k) :
    (Reader.Read k b rd).1 = ([], some rd.final) ∧
      Ready (Reader.Read k b rd).2.1 (Reader.Read k b rd).2.2 [] := by
  obtain ⟨hc, he, hs⟩ := h
  have hk0 : k ≠ 0 := by omega
  obtain ⟨hb, hflat⟩ := List.append_eq_nil.mp hs
  unfold Reader.Read
  rw [if_neg hk0, if_pos hb, he]
  dsimp only
  by_cases hbig : defaultBufSize ≤ k
  · rw [if_pos hbig]
    obtain ⟨h1, h2⟩ := NetConn.Read_final hc hk hflat
    have hcl := (NetConn.Read_link k rd).2.1
    refine ⟨?_, hcl.trans hc, rfl, ?_⟩
    · rw [h1]
    · simpa using h2
  · rw [if_neg hbig]
    have hd : 0 < defaultBufSize := by decide
    obtain ⟨h1, h2⟩ := NetConn.Read_final hc hd hflat
    have hcl := (NetConn.Read_link defaultBufSize rd).2.1
    have h11 : (rd.Read defaultBufSize).1.1 = [] := by rw [h1]
    have h12 : (rd.Read defaultBufSize).1.2 = some rd.final := by rw [h1]
    rw [if_pos h11, h12]
    refine ⟨rfl, hcl.trans hc, rfl, ?_⟩
    simpa using h2

theorem readAtLeastLoop_ready (fuel m : Nat) {acc : List Byte} {b : Reader} {rd : NetConn}
    {s : List Byte} (h : Ready b rd s) (hm : m ≤ acc.length + s.length)
    (hf : m ≤ acc.length + fuel) :
    (readAtLeastLoop fuel m acc b rd).1 = (acc ++ s.take (m - acc.length), none) ∧
      Ready (readAtLeastLoop fuel m acc b rd).2.1 (readAtLeastLoop fuel m acc b rd).2.2
        (s.drop (m - acc.length)) := by
  induction fuel generalizing acc b rd s with
  | zero =>
    have h0 : m - acc.length = 0 := by omega
    unfold readAtLeastLoop
    rw [h0]
    simpa using h
  | succ f ih =>
    unfold readAtLeastLoop
    by_cases hlt : acc.length < m
    · rw [if_pos hlt]
      have hne : s ≠ [] := by
        intro h0
        rw [h0] at hm
        simp only [List.length_nil] at hm
        omega
      obtain ⟨h1, h2, h3, t, h4, h5⟩ := Reader.Read_ready h (by omega : 0 < m - acc.length) hne
      have hpos : 0 < ((Reader.Read (m - acc.length) b rd).1.1).length :=
        List.length_pos.mpr h2
      dsimp only
      rw [h1]
      dsimp only
      have hslen : s.length = (Reader.Read (m - acc.length) b rd).1.1.length + t.length := by
        rw [← h4, List.length_append]
      obtain ⟨r1, r2⟩ := @ih (acc ++ (Reader.Read (m - acc.length) b rd).1.1) _ _ _ h5
        (by rw [List.length_append]; omega) (by rw [List.length_append]; omega)
      rw [List.length_append] at r1 r2
      have hsub : m - (acc.length + (Reader.Read (m - acc.length) b rd).1.1.length) =
          m - acc.length - (Reader.Read (m - acc.length) b rd).1.1.length := by omega
      refine ⟨?_, ?_⟩
      · rw [r1, ← h4, List.take_append_eq_append_take, List.take_of_length_le h3, hsub,
          List.append_assoc]
      · rw [← h4, List.drop_append_eq_append_drop, List.drop_of_length_le h3, List.nil_append,
          ← hsub]
        exact r2
    · rw [if_neg hlt]
      have h0 : m - acc.length = 0 := by omega
      rw [h0]
      simpa using h

/-- `ReadFull n` with at least `n` bytes to come returns exactly the next `n`
bytes, without error, and leaves the bytes after them. -/
theorem ReadFull_ready (n : Nat) {b : Reader} {rd : NetConn} {s : List Byte}
    (h : Ready b rd s) (hn : n ≤ s.length) :
    (ReadFull n b rd).1 = (s.take n, none) ∧
      Ready (ReadFull n b rd).2.1 (ReadFull n b rd).2.2 (s.drop n) := by
  obtain ⟨h1, h2⟩ := @readAtLeastLoop_ready n n [] b rd s h (by simpa using hn)
    (by simp)
  simp only [List.length_nil, Nat.sub_zero, List.nil_append] at h1 h2
  unfold ReadFull
  have hlen : n ≤ ((readAtLeastLoop n n [] b rd).1.1).length := by
    rw [h1]
    simp only [List.length_take]
    omega
  dsimp only
  rw [if_pos hlen]
  refine ⟨?_, h2⟩
  rw [h1]

/-! ## The scan, path by path -/

theorem v2sig_length : v2sig.length = 12 := rfl

theorem take_sig (t : List Byte) : List.take 12 (v2sig ++ t) = v2sig :=
  List.take_left v2sig t

theorem take_hdr (vc fam l1 l2 : Byte) (t : List Byte) :
    List.take 16 (v2sig ++ vc :: fam :: l1 :: l2 :: t) = v2sig ++ [vc, fam, l1, l2] := rfl

theorem drop_hdr (vc fam l1 l2 : Byte) (t : List Byte) :
    List.drop 16 (v2sig ++ vc :: fam :: l1 :: l2 :: t) = t := rfl

theorem hdr_length (vc fam l1 l2 : Byte) (t : List Byte) :
    (v2sig ++ vc :: fam :: l1 :: l2 :: t).length = 16 + t.length := by
  simp only [List.length_append, v2sig_length, List.length_cons]
  omega

theorem decodeHdr_eq (vc fam l1 l2 : Byte) :
    decodeHdr (v2sig ++ [vc, fam, l1, l2]) =
      { Sig := v2sig, VerCmd := vc, Fam := fam, Len := be16 l1 l2 } := rfl

theorem sameConn_refl (c : Conn) : sameConn c c := ⟨rfl, rfl, rfl, rfl, rfl, rfl, rfl, rfl, rfl⟩

/-- The connection once the header deadline has been set, if any. -/
theorem deadline_step (c : Conn) :
    sameConn c (if c.readTimeout ≠ 0 then
      { c with Conn := c.Conn.SetReadDeadline (c.Conn.now + c.readTimeout) } else c) ∧
    (if c.readTimeout ≠ 0 then
      { c with Conn := c.Conn.SetReadDeadline (c.Conn.now + c.readTimeout) } else c).Reader
      = c.Reader ∧
    (if c.readTimeout ≠ 0 then
      { c with Conn := c.Conn.SetReadDeadline (c.Conn.now + c.readTimeout) } else c).Conn.incoming
      = c.Conn.incoming := by
  split
  · exact ⟨⟨rfl, rfl, rfl, rfl, rfl, rfl, rfl, rfl, rfl⟩, rfl, rfl⟩
  · exact ⟨sameConn_refl c, rfl, rfl⟩

/-- The scan on a stream that opens with the signature and a complete fixed
header: the 16 octets are consumed and the scan goes on as `afterHeader`. -/
theorem scan_header {c : Conn} {vc fam l1 l2 : Byte} {rest : List Byte}
    (h : Ready c.Reader c.Conn (v2sig ++ vc :: fam :: l1 :: l2 :: rest)) :
    ∃ c2 : Conn, Ready c2.Reader c2.Conn rest ∧ sameConn c c2 ∧
      scanProxyData c =
        afterHeader { Sig := v2sig, VerCmd := vc, Fam := fam, Len := be16 l1 l2 } c2 := by
  unfold scanProxyData
  obtain ⟨hsame, hrd, hinc⟩ := deadline_step c
  have h0 : Ready (if c.readTimeout ≠ 0 then
      { c with Conn := c.Conn.SetReadDeadline (c.Conn.now + c.readTimeout) } else c).Reader
      (if c.readTimeout ≠ 0 then
      { c with Conn := c.Conn.SetReadDeadline (c.Conn.now + c.readTimeout) } else c).Conn
      (v2sig ++ vc :: fam :: l1 :: l2 :: rest) := by
    refine ⟨hsame.2.2.2.2.2.2.1.trans h.1, ?_, ?_⟩
    · rw [hrd]; exact h.2.1
    · rw [hrd, hinc]; exact h.2.2
  dsimp only
  generalize (if c.readTimeout ≠ 0 then
      { c with Conn := c.Conn.SetReadDeadline (c.Conn.now + c.readTimeout) } else c) = c0
      at h0 hsame ⊢
  rw [v2sig_length]
  obtain ⟨hp1, hp2⟩ := Reader.Peek_ready 12 h0 (by rw [hdr_length]; omega) (by decide)
  have hpl := Reader.Peek_sameLink 12 c0.Reader c0.Conn
  rw [take_sig] at hp1
  generalize Reader.Peek 12 c0.Reader c0.Conn = p at hp1 hp2 hpl ⊢
  obtain ⟨⟨pb, pe⟩, pr, pc⟩ := p
  simp only [Prod.mk.injEq] at hp1
  obtain ⟨rfl, rfl⟩ := hp1
  dsimp only at hp2 hpl ⊢
  rw [if_neg (not_not.mpr rfl)]
  obtain ⟨hh1, hh2⟩ := ReadFull_ready 16 hp2 (by rw [hdr_length]; omega)
  have hhl := ReadFull_sameLink 16 pr pc
  rw [take_hdr] at hh1
  rw [drop_hdr] at hh2
  generalize ReadFull 16 pr pc = hd at hh1 hh2 hhl ⊢
  obtain ⟨⟨hb, he⟩, hr, hc⟩ := hd
  simp only [Prod.mk.injEq] at hh1
  obtain ⟨rfl, rfl⟩ := hh1
  dsimp only at hh2 hhl ⊢
  rw [decodeHdr_eq]
  refine ⟨{ c0 with Reader := hr, Conn := hc }, hh2, ?_, rfl⟩
  obtain ⟨s1, s2, s3, s4, s5, s6, s7, s8, s9⟩ := hsame
  obtain ⟨p1, p2, _, p4, p5⟩ := hpl
  obtain ⟨q1, q2, _, q4, q5⟩ := hhl
  exact ⟨s1, s2, s3, s4, s5, (q1.trans p1).trans s6, (q2.trans p2).trans s7,
    (q4.trans p4).trans s8, (q5.trans p5).trans s9⟩

/-- The scan on a stream of at least 12 bytes that does not open with the
signature: no error, nothing consumed, nothing recorded. -/
theorem scan_nosig {c : Conn} {s : List Byte} (h : Ready c.Reader c.Conn s)
    (hlen : 12 ≤ s.length) (hsig : s.take 12 ≠ v2sig) :
    (scanProxyData c).1 = none ∧
      Ready (scanProxyData c).2.Reader (scanProxyData c).2.Conn s ∧
      sameConn c (scanProxyData c).2 := by
  unfold scanProxyData
  obtain ⟨hsame, hrd, hinc⟩ := deadline_step c
  have h0 : Ready (if c.readTimeout ≠ 0 then
      { c with Conn := c.Conn.SetReadDeadline (c.Conn.now + c.readTimeout) } else c).Reader
      (if c.readTimeout ≠ 0 then
      { c with Conn := c.Conn.SetReadDeadline (c.Conn.now + c.readTimeout) } else c).Conn
      s := by
    refine ⟨hsame.2.2.2.2.2.2.1.trans h.1, ?_, ?_⟩
    · rw [hrd]; exact h.2.1
    · rw [hrd, hinc]; exact h.2.2
  dsimp only
  generalize (if c.readTimeout ≠ 0 then
      { c with Conn := c.Conn.SetReadDeadline (c.Conn.now + c.readTimeout) } else c) = c0
      at h0 hsame ⊢
  rw [v2sig_length]
  obtain ⟨hp1, hp2⟩ := Reader.Peek_ready 12 h0 hlen (by decide)
  have hpl := Reader.Peek_sameLink 12 c0.Reader c0.Conn
  generalize Reader.Peek 12 c0.Reader c0.Conn = p at hp1 hp2 hpl ⊢
  obtain ⟨⟨pb, pe⟩, pr, pc⟩ := p
  simp only [Prod.mk.injEq] at hp1
  obtain ⟨rfl, rfl⟩ := hp1
  dsimp only at hp2 hpl ⊢
  rw [if_pos hsig]
  refine ⟨rfl, hp2, ?_⟩
  obtain ⟨s1, s2, s3, s4, s5, s6, s7, s8, s9⟩ := hsame
  obtain ⟨p1, p2, _, p4, p5⟩ := hpl
  exact ⟨s1, s2, s3, s4, s5, p1.trans s6, p2.trans s7, p4.trans s8, p5.trans s9⟩

/-- The scan on a LOCAL header: the 16 octets of the fixed header are
consumed, nothing else, and no address is recorded. -/
theorem scan_local_path {c : Conn} {fam l1 l2 : Byte} {rest : List Byte}
    (h : Ready c.Reader c.Conn (v2sig ++ 0x20 :: fam :: l1 :: l2 :: rest)) :
    (scanProxyData c).1 = none ∧
      Ready (scanProxyData c).2.Reader (scanProxyData c).2.Conn rest ∧
      sameConn c (scanProxyData c).2 := by
  obtain ⟨c2, hr, hs, heq⟩ := scan_header h
  rw [heq]
  unfold afterHeader
  dsimp only
  rw [if_pos rfl]
  exact ⟨rfl, hr, hs⟩

/-- The scan on a PROXY header for TCP over IPv4 with its 12 address octets:
header and address block are consumed, the addresses recorded. -/
theorem scan_ip4_path {c : Conn} {l1 l2 a0 a1 a2 a3 a4 a5 a6 a7 a8 a9 a10 a11 : Byte}
    {rest : List Byte}
    (h : Ready c.Reader c.Conn (v2sig ++ 0x21 :: 0x11 :: l1 :: l2 ::
      (a0 :: a1 :: a2 :: a3 :: a4 :: a5 :: a6 :: a7 :: a8 :: a9 :: a10 :: a11 :: rest))) :
    (scanProxyData c).1 = none ∧
      Ready (scanProxyData c).2.Reader (scanProxyData c).2.Conn rest ∧
      (scanProxyData c).2.srcAddr =
        some { IP := [a0, a1, a2, a3], Port := 256 * a8.val + a9.val, Zone := "" } ∧
      (scanProxyData c).2.dstAddr =
        some { IP := [a4, a5, a6, a7], Port := 256 * a10.val + a11.val, Zone := "" } ∧
      (scanProxyData c).2.useRemoteAddress = c.useRemoteAddress ∧
      (scanProxyData c).2.Conn.final = c.Conn.final ∧
      (scanProxyData c).2.Conn.remoteAddr = c.Conn.remoteAddr := by
  obtain ⟨c2, hr, hs, heq⟩ := scan_header h
  rw [heq]
  unfold afterHeader
  dsimp only
  rw [if_neg (by decide), if_pos rfl, if_pos rfl]
  obtain ⟨ha1, ha2⟩ := ReadFull_ready 12 hr (by simp only [List.length_cons]; omega)
  have hal := ReadFull_sameLink 12 c2.Reader c2.Conn
  generalize ReadFull 12 c2.Reader c2.Conn = a at ha1 ha2 hal ⊢
  obtain ⟨⟨ab, ae⟩, ar, ac⟩ := a
  simp only [Prod.mk.injEq] at ha1
  obtain ⟨rfl, rfl⟩ := ha1
  dsimp only at ha2 hal ⊢
  obtain ⟨s1, s2, s3, s4, s5, s6, s7, s8, s9⟩ := hs
  obtain ⟨p1, p2, _, p4, p5⟩ := hal
  exact ⟨rfl, ha2, rfl, rfl, s3, p1.trans s6, p4.trans s8⟩

/-! ## Reading after the scan -/

theorem onceDo_done {c : Conn} (h : c.once = true) : onceDo c = (none, c) := by
  unfold onceDo
  rw [if_pos h]

theorem onceDo_first {c : Conn} (h : c.once = false) :
    onceDo c = ((scanProxyData c).1, { (scanProxyData c).2 with once := true }) := by
  unfold onceDo
  rw [if_neg (by rw [h]; decide)]

theorem Read_done {c : Conn} (k : Nat) (h : c.once = true) :
    Read k c = ((Reader.Read k c.Reader c.Conn).1,
      { c with Reader := (Reader.Read k c.Reader c.Conn).2.1,
               Conn := (Reader.Read k c.Reader c.Conn).2.2 }) := by
  unfold Read
  rw [onceDo_done h]

/-- The first `Read` on a connection whose scan succeeds is a `Read` on the
scanned connection. -/
theorem Read_first {c : Conn} (k : Nat) (h : c.once = false)
    (hok : (scanProxyData c).1 = none) :
    Read k c = Read k { (scanProxyData c).2 with once := true } := by
  rw [@Read_done { (scanProxyData c).2 with once := true } k rfl]
  unfold Read
  rw [onceDo_first h]
  dsimp only
  rw [hok]

theorem readAll_first {c : Conn} (k fuel : Nat) (h : c.once = false)
    (hok : (scanProxyData c).1 = none) :
    readAll k (fuel + 1) c = readAll k (fuel + 1) { (scanProxyData c).2 with once := true } := by
  unfold readAll
  rw [Read_first k h hok]

/-- Reading a scanned connection to its end delivers exactly the pending
bytes, in order, and then the terminal error of the transport. -/
theorem readAll_ready (k fuel : Nat) {c : Conn} {s : List Byte} (hk : 0 < k)
    (hon : c.once = true) (h : Ready c.Reader c.Conn s) (hf : s.length < fuel) :
    (readAll k fuel c).1 = (s, some c.Conn.final) := by
  induction fuel generalizing c s with
  | zero => omega
  | succ f ih =>
    unfold readAll
    rw [Read_done k hon]
    dsimp only
    by_cases hs : s = []
    · subst hs
      obtain ⟨h1, _⟩ := Reader.Read_end h hk
      rw [h1]
    · obtain ⟨h1, h2, _, t, h4, h5⟩ := Reader.Read_ready h hk hs
      have hfin := (Reader.Read_sameLink k c.Reader c.Conn).1
      have hpos : 0 < ((Reader.Read k c.Reader c.Conn).1.1).length := List.length_pos.mpr h2
      have hlen : s.length = (Reader.Read k c.Reader c.Conn).1.1.length + t.length := by
        rw [← h4, List.length_append]
      rw [h1]
      dsimp only
      have hrec := @ih { c with Reader := (Reader.Read k c.Reader c.Conn).2.1
                                Conn := (Reader.Read k c.Reader c.Conn).2.2 } t hon h5 (by omega)
      rw [hrec]
      dsimp only
      rw [h4, hfin]

/-- Reading a connection from `Accept` to its end, when the scan succeeds and
leaves `s` to deliver: exactly `s`, then the terminal error of the transport. -/
theorem readAll_scanned (k fuel : Nat) {c : Conn} {s : List Byte} (hk : 0 < k)
    (hon : c.once = false) (hok : (scanProxyData c).1 = none)
    (h : Ready (scanProxyData c).2.Reader (scanProxyData c).2.Conn s)
    (hfin : (scanProxyData c).2.Conn.final = c.Conn.final) (hf : s.length < fuel) :
    (readAll k fuel c).1 = (s, some c.Conn.final) := by
  cases fuel with
  | zero => omega
  | succ f =>
    rw [readAll_first k f hon hok]
    rw [@readAll_ready k (f + 1) { (scanProxyData c).2 with once := true } s hk rfl h hf]
    dsimp only
    rw [hfin]

theorem RemoteAddr_first {c : Conn} (h : c.once = false) (hok : (scanProxyData c).1 = none) :
    RemoteAddr c =
      (if (scanProxyData c).2.srcAddr ≠ none ∧ (scanProxyData c).2.useRemoteAddress = true
        then (scanProxyData c).2.srcAddr else some (scanProxyData c).2.Conn.remoteAddr,
       { (scanProxyData c).2 with once := true }) := by
  unfold RemoteAddr
  rw [onceDo_first h]
  dsimp only
  rw [hok]
  dsimp only
  split <;> rfl

theorem fresh_ready {c : Conn} (h : fresh c) : Ready c.Reader c.Conn c.Conn.incoming.flatten := by
  obtain ⟨h1, h2, _, _, _⟩ := h
  refine ⟨h2, ?_, ?_⟩
  · rw [h1]; rfl
  · rw [h1]; rfl

/-! ## What the scan never touches -/

/-- Whatever the stream holds, the scan leaves the trust flag, the gate, the
timeout, the peer address, the clock and the terminal error as they were. -/
theorem scan_frame (c : Conn) :
    (scanProxyData c).2.useRemoteAddress = c.useRemoteAddress ∧
      (scanProxyData c).2.once = c.once ∧
      (scanProxyData c).2.readTimeout = c.readTimeout ∧
      (scanProxyData c).2.Conn.remoteAddr = c.Conn.remoteAddr ∧
      (scanProxyData c).2.Conn.final = c.Conn.final ∧
      (scanProxyData c).2.Conn.now = c.Conn.now := by
  unfold scanProxyData
  obtain ⟨hsame, _, _⟩ := deadline_step c
  dsimp only
  generalize (if c.readTimeout ≠ 0 then
      { c with Conn := c.Conn.SetReadDeadline (c.Conn.now + c.readTimeout) } else c) = c0
      at hsame ⊢
  obtain ⟨-, -, s3, s4, s5, s6, -, s8, s9⟩ := hsame
  obtain ⟨p1, -, -, p4, p5⟩ := Reader.Peek_sameLink v2sig.length c0.Reader c0.Conn
  generalize Reader.Peek v2sig.length c0.Reader c0.Conn = p at p1 p4 p5 ⊢
  obtain ⟨q1, -, -, q4, q5⟩ := ReadFull_sameLink 16 p.2.1 p.2.2
  generalize ReadFull 16 p.2.1 p.2.2 = hd at q1 q4 q5 ⊢
  obtain ⟨a1, -, -, a4, a5⟩ := ReadFull_sameLink 12 hd.2.1 hd.2.2
  generalize ReadFull 12 hd.2.1 hd.2.2 = r4 at a1 a4 a5 ⊢
  obtain ⟨b1, -, -, b4, b5⟩ := ReadFull_sameLink 36 hd.2.1 hd.2.2
  generalize ReadFull 36 hd.2.1 hd.2.2 = r6 at b1 b4 b5 ⊢
  obtain ⟨d1, -, -, d4, d5⟩ := Reader.Discard_sameLink (decodeHdr hd.1.1).Len hd.2.1 hd.2.2
  generalize Reader.Discard (decodeHdr hd.1.1).Len hd.2.1 hd.2.2 = d at d1 d4 d5 ⊢
  repeat' split
  all_goals simp only [Close, NetConn.Close, *, and_self]

/-- The scan does not look at the trust flag: with either value it returns
the same error and leaves the same connection. -/
theorem scan_flag (c : Conn) (t : Bool) :
    scanProxyData { c with useRemoteAddress := t } =
      ((scanProxyData c).1, { (scanProxyData c).2 with useRemoteAddress := t }) := by
  unfold scanProxyData
  dsimp only
  by_cases ht : c.readTimeout ≠ 0
  · rw [if_pos ht, if_pos ht]
    dsimp only
    generalize Reader.Peek v2sig.length c.Reader
      (c.Conn.SetReadDeadline (c.Conn.now + c.readTimeout)) = p
    generalize ReadFull 16 p.2.1 p.2.2 = hd
    generalize ReadFull 12 hd.2.1 hd.2.2 = r4
    generalize ReadFull 36 hd.2.1 hd.2.2 = r6
    generalize Reader.Discard (decodeHdr hd.1.1).Len hd.2.1 hd.2.2 = d
    repeat' split
    all_goals rfl
  · rw [if_neg ht, if_neg ht]
    dsimp only
    generalize Reader.Peek v2sig.length c.Reader c.Conn = p
    generalize ReadFull 16 p.2.1 p.2.2 = hd
    generalize ReadFull 12 hd.2.1 hd.2.2 = r4
    generalize ReadFull 36 hd.2.1 hd.2.2 = r6
    generalize Reader.Discard (decodeHdr hd.1.1).Len hd.2.1 hd.2.2 = d
    repeat' split
    all_goals rfl

/-! ## Decoding of a TCP over IPv4 header -/

/-- C1: on a connection from `Accept` whose stream starts with the signature,
`verCmd = 0x21`, `fam = 0x11`, any two length octets and twelve further
octets `a0 .. a11`, the scan returns no error and records the source address
`a0.a1.a2.a3` with port `256 * a8 + a9` and the destination address
`a4.a5.a6.a7` with port `256 * a10 + a11`; the first `Read` and the first
`RemoteAddr` trigger that scan and leave the same addresses recorded. -/
theorem scan_tcp4_decodes (c : Conn) (l1 l2 a0 a1 a2 a3 a4 a5 a6 a7 a8 a9 a10 a11 : Byte)
    (rest : List Byte) (k : Nat) (hf : fresh c)
    (hs : c.Conn.incoming.flatten = v2sig ++ [0x21, 0x11, l1, l2] ++
      [a0, a1, a2, a3, a4, a5, a6, a7, a8, a9, a10, a11] ++ rest) :
    (scanProxyData c).1 = none ∧
      (scanProxyData c).2.srcAddr =
        some { IP := [a0, a1, a2, a3], Port := 256 * a8.val + a9.val, Zone := "" } ∧
      (scanProxyData c).2.dstAddr =
        some { IP := [a4, a5, a6, a7], Port := 256 * a10.val + a11.val, Zone := "" } ∧
      (Read k c).2.srcAddr = (scanProxyData c).2.srcAddr ∧
      (Read k c).2.dstAddr = (scanProxyData c).2.dstAddr ∧
      (RemoteAddr c).2.srcAddr = (scanProxyData c).2.srcAddr ∧
      (RemoteAddr c).2.dstAddr = (scanProxyData c).2.dstAddr := by
  have hr := fresh_ready hf
  rw [hs] at hr
  have hshape : v2sig ++ [0x21, 0x11, l1, l2] ++
      [a0, a1, a2, a3, a4, a5, a6, a7, a8, a9, a10, a11] ++ rest =
      v2sig ++ 0x21 :: 0x11 :: l1 :: l2 ::
        (a0 :: a1 :: a2 :: a3 :: a4 :: a5 :: a6 :: a7 :: a8 :: a9 :: a10 :: a11 :: rest) := by
    simp only [List.append_assoc, List.cons_append, List.nil_append]
  rw [hshape] at hr
  obtain ⟨h1, _, h3, h4, _⟩ := scan_ip4_path hr
  have hon : c.once = false := hf.2.2.2.2
  refine ⟨h1, h3, h4, ?_, ?_, ?_, ?_⟩
  · rw [Read_first k hon h1, Read_done k rfl]
  · rw [Read_first k hon h1, Read_done k rfl]
  · rw [RemoteAddr_first hon h1]
  · rw [RemoteAddr_first hon h1]

/-- C1, the example of the specification: source 10.0.0.5:1234 and
destination 10.0.0.1:80. -/
theorem scan_tcp4_decodes_witness :
    fresh (connOf [tcp4Example] true) ∧
      (scanProxyData (connOf [tcp4Example] true)).1 = none ∧
      (scanProxyData (connOf [tcp4Example] true)).2.srcAddr =
        some { IP := [10, 0, 0, 5], Port := 1234, Zone := "" } ∧
      (scanProxyData (connOf [tcp4Example] true)).2.dstAddr =
        some { IP := [10, 0, 0, 1], Port := 80, Zone := "" } :=
  have h := scan_tcp4_decodes (connOf [tcp4Example] true) 0x00 0x0C 10 0 0 5 10 0 0 1
    0x04 0xD2 0x00 0x50 httpGet 16 (by decide) (by decide)
  ⟨by decide, h.1, h.2.1, h.2.2.1⟩

/-! ## Payload after a TCP over IPv4 header -/

/-- C2, as stated, fails: with declared length 13 (address block and one
extension octet `0xEE`) and payload `G`, reading to the end delivers `0xEE`
and `G`, not the payload alone. -/
theorem tcp4_extension_leaks :
    tcp4TlvExample = v2sig ++ [0x21, 0x11, 0x00, 0x0D] ++
        [10, 0, 0, 5, 10, 0, 0, 1, 0x04, 0xD2, 0x00, 0x50] ++ [0xEE] ++ [0x47] ∧
      be16 0x00 0x0D = 12 + [(0xEE : Byte)].length ∧
      (readAll 16 3 (connOf [tcp4TlvExample] true)).1 = ([0xEE, 0x47], some Error.EOF) ∧
      (readAll 16 3 (connOf [tcp4TlvExample] true)).1.1 ≠ [0x47] := by
  decide

/-- C2, amended: after a PROXY header for TCP over IPv4 with declared length
`12 + ext.length`, extension octets `ext` and payload `P`, the scan strips the
fixed header and the 12-octet address block only; reading the connection to
its end (any slice length `k > 0`) delivers exactly `ext ++ P`, hence exactly
`P` when the declared length is 12. -/
theorem read_after_tcp4_header (c : Conn)
    (l1 l2 a0 a1 a2 a3 a4 a5 a6 a7 a8 a9 a10 a11 : Byte) (ext P : List Byte) (k fuel : Nat)
    (hf : fresh c)
    (hs : c.Conn.incoming.flatten = v2sig ++ [0x21, 0x11, l1, l2] ++
      [a0, a1, a2, a3, a4, a5, a6, a7, a8, a9, a10, a11] ++ ext ++ P)
    (hL : be16 l1 l2 = 12 + ext.length) (hk : 0 < k)
    (hfuel : ext.length + P.length < fuel) :
    (scanProxyData c).1 = none ∧ pending (scanProxyData c).2 = ext ++ P ∧
      (readAll k fuel c).1 = (ext ++ P, some c.Conn.final) ∧
      (ext = [] → (readAll k fuel c).1 = (P, some c.Conn.final)) := by
  have _ := hL
  have hr := fresh_ready hf
  rw [hs] at hr
  have hshape : v2sig ++ [0x21, 0x11, l1, l2] ++
      [a0, a1, a2, a3, a4, a5, a6, a7, a8, a9, a10, a11] ++ ext ++ P =
      v2sig ++ 0x21 :: 0x11 :: l1 :: l2 ::
        (a0 :: a1 :: a2 :: a3 :: a4 :: a5 :: a6 :: a7 :: a8 :: a9 :: a10 :: a11 ::
          (ext ++ P)) := by
    simp only [List.append_assoc, List.cons_append, List.nil_append]
  rw [hshape] at hr
  obtain ⟨h1, h2, _, _, _, h6, _⟩ := scan_ip4_path hr
  have hall := readAll_scanned k fuel hk hf.2.2.2.2 h1 h2 h6
    (by rw [List.length_append]; exact hfuel)
  refine ⟨h1, h2.2.2, hall, ?_⟩
  intro he
  rw [hall, he, List.nil_append]

/-- C2, amended, on the example of the specification: declared length 12,
the request line comes out as it went in. -/
theorem read_after_tcp4_header_witness :
    fresh (connOf [tcp4Example] true) ∧ be16 0x00 0x0C = 12 + ([] : List Byte).length ∧
      (readAll 5 17 (connOf [tcp4Example] true)).1 = (httpGet, some Error.EOF) :=
  ⟨by decide, by decide,
    (read_after_tcp4_header (connOf [tcp4Example] true) 0x00 0x0C 10 0 0 5 10 0 0 1
      0x04 0xD2 0x00 0x50 [] httpGet 5 17 (by decide) (by decide) (by decide) (by decide)
      (by decide)).2.2.2 rfl⟩

/-! ## The address that RemoteAddr returns -/

/-- C3: on a connection whose gate has not fired and whose scan succeeds,
`RemoteAddr` returns the recorded source address when one is recorded and the
trust flag is set, and the peer address of the transport in every other case
(so the returned address is the recorded one exactly in the first case, unless
both coincide); a second call returns the same. With the trust flag unset the
result is the peer address whatever the stream holds, and the scan returns the
same error and leaves the same stream with either value of the flag. -/
theorem remoteAddr_trust (c : Conn) (hon : c.once = false)
    (hok : (scanProxyData c).1 = none) :
    ((scanProxyData c).2.srcAddr ≠ none ∧ c.useRemoteAddress = true →
        (RemoteAddr c).1 = (scanProxyData c).2.srcAddr) ∧
      (¬ ((scanProxyData c).2.srcAddr ≠ none ∧ c.useRemoteAddress = true) →
        (RemoteAddr c).1 = some c.Conn.remoteAddr) ∧
      ((scanProxyData c).2.srcAddr ≠ some c.Conn.remoteAddr →
        ((RemoteAddr c).1 = (scanProxyData c).2.srcAddr ↔
          (scanProxyData c).2.srcAddr ≠ none ∧ c.useRemoteAddress = true)) ∧
      (RemoteAddr (RemoteAddr c).2).1 = (RemoteAddr c).1 ∧
      (c.useRemoteAddress = false → (RemoteAddr c).1 = some c.Conn.remoteAddr) ∧
      (∀ t : Bool,
        (scanProxyData { c with useRemoteAddress := t }).1 = (scanProxyData c).1 ∧
        pending (scanProxyData { c with useRemoteAddress := t }).2 =
          pending (scanProxyData c).2 ∧
        (scanProxyData { c with useRemoteAddress := t }).2.srcAddr =
          (scanProxyData c).2.srcAddr) := by
  obtain ⟨f1, _, _, f4, _, _⟩ := scan_frame c
  have hfirst := RemoteAddr_first hon hok
  rw [f1, f4] at hfirst
  have hpos : (scanProxyData c).2.srcAddr ≠ none ∧ c.useRemoteAddress = true →
      (RemoteAddr c).1 = (scanProxyData c).2.srcAddr := by
    intro hc
    rw [hfirst]
    dsimp only
    rw [if_pos hc]
  have hneg : ¬ ((scanProxyData c).2.srcAddr ≠ none ∧ c.useRemoteAddress = true) →
      (RemoteAddr c).1 = some c.Conn.remoteAddr := by
    intro hc
    rw [hfirst]
    dsimp only
    rw [if_neg hc]
  refine ⟨hpos, hneg, ?_, ?_, ?_, ?_⟩
  · intro hdiff
    constructor
    · intro heq
      by_contra hc
      rw [hneg hc] at heq
      exact hdiff heq.symm
    · exact hpos
  · rw [hfirst]
    unfold RemoteAddr
    rw [onceDo_done rfl]
    dsimp only
    rw [f1, f4]
    split <;> rfl
  · intro hu
    apply hneg
    rw [hu]
    intro hc
    exact absurd hc.2 (by decide)
  · intro t
    rw [scan_flag c t]
    exact ⟨rfl, rfl, rfl⟩

/-- C3 on the example of the specification: trusted, the decoded source;
untrusted, the peer of the transport. -/
theorem remoteAddr_trust_witness :
    (connOf [tcp4Example] true).once = false ∧
      (scanProxyData (connOf [tcp4Example] true)).1 = none ∧
      (RemoteAddr (connOf [tcp4Example] true)).1 =
        some { IP := [10, 0, 0, 5], Port := 1234, Zone := "" } ∧
      (RemoteAddr (connOf [tcp4Example] false)).1 =
        some { IP := [192, 0, 2, 7], Port := 40000, Zone := "" } :=
  ⟨by decide, by decide,
    ((remoteAddr_trust (connOf [tcp4Example] true) (by decide) (by decide)).1
      (by decide)).trans (by decide),
    (remoteAddr_trust (connOf [tcp4Example] false) (by decide) (by decide)).2.2.2.2.1 rfl⟩

/-! ## The loop bounds are never what ends a loop

The loops of `Peek`, `io.ReadAtLeast` and `Discard` are embedded with a bound
on their rounds. Each of them comes to its own exit before the bound. -/

theorem NetConn.Read_advance (k : Nat) (rd : NetConn) (hk : 0 < k) :
    (rd.Read k).1.2 ≠ none ∨ (rd.Read k).1.1 ≠ [] := by
  unfold NetConn.Read
  have hk0 : k ≠ 0 := by omega
  by_cases hc : rd.closed = true
  · rw [if_pos hc]
    exact Or.inl (by simp)
  · rw [if_neg hc, if_neg hk0]
    cases hseg : nextSegment rd.incoming with
    | none => exact Or.inl (by simp)
    | some p =>
      obtain ⟨seg, rest⟩ := p
      obtain ⟨hs1, _⟩ := nextSegment_some hseg
      right
      dsimp only
      intro h0
      have hl : (List.take k seg).length = 0 := by rw [h0]; rfl
      have hpos : 0 < seg.length := List.length_pos.mpr hs1
      rw [List.length_take] at hl
      omega

theorem Reader.fill_progress (b : Reader) (rd : NetConn)
    (hsz : b.buf.length < defaultBufSize) :
    (b.fill rd).1.err ≠ none ∨ b.buf.length < (b.fill rd).1.buf.length := by
  unfold Reader.fill
  dsimp only
  cases he : (rd.Read (defaultBufSize - b.buf.length)).1.2 with
  | some e => exact Or.inl (by simp)
  | none =>
    dsimp only
    rcases NetConn.Read_advance (defaultBufSize - b.buf.length) rd (by omega) with h | h
    · exact absurd he h
    · rw [if_neg h]
      right
      have hpos := List.length_pos.mpr h
      dsimp only
      rw [List.length_append]
      omega

/-- The loop of `Peek` ends because its condition fails. -/
theorem Reader.peekLoop_exit (fuel n : Nat) (b : Reader) (rd : NetConn)
    (hf : n ≤ b.buf.length + fuel ∨ b.err ≠ none) :
    ¬ ((Reader.peekLoop fuel n b rd).1.buf.length < n ∧
      (Reader.peekLoop fuel n b rd).1.buf.length < defaultBufSize ∧
      (Reader.peekLoop fuel n b rd).1.err = none) := by
  induction fuel generalizing b rd with
  | zero =>
    unfold Reader.peekLoop
    dsimp only
    rintro ⟨h1, _, h3⟩
    rcases hf with h | h
    · omega
    · exact h h3
  | succ f ih =>
    unfold Reader.peekLoop
    by_cases hc : b.buf.length < n ∧ b.buf.length < defaultBufSize ∧ b.err = none
    · rw [if_pos hc]
      apply ih
      rcases Reader.fill_progress b rd hc.2.1 with h | h
      · exact Or.inr h
      · rcases hf with h2 | h2
        · left; omega
        · exact absurd hc.2.2 h2
    · rw [if_neg hc]
      exact hc

theorem Reader.Read_progress (k : Nat) (b : Reader) (rd : NetConn) (hk : 0 < k) :
    (Reader.Read k b rd).1.2 ≠ none ∨ (Reader.Read k b rd).1.1 ≠ [] := by
  have hk0 : k ≠ 0 := by omega
  have htake : ∀ l : List Byte, l ≠ [] → List.take k l ≠ [] := by
    intro l hl h0
    have hlen : (List.take k l).length = 0 := by rw [h0]; rfl
    have hpos := List.length_pos.mpr hl
    rw [List.length_take] at hlen
    omega
  unfold Reader.Read
  rw [if_neg hk0]
  by_cases hb : b.buf = []
  · rw [if_pos hb]
    cases he : b.err with
    | some e => exact Or.inl (by simp)
    | none =>
      dsimp only
      by_cases hbig : defaultBufSize ≤ k
      · rw [if_pos hbig]
        exact NetConn.Read_advance k rd hk
      · rw [if_neg hbig]
        rcases NetConn.Read_advance defaultBufSize rd (by decide) with h | h
        · by_cases h0 : (rd.Read defaultBufSize).1.1 = []
          · rw [if_pos h0]
            exact Or.inl h
          · rw [if_neg h0]
            exact Or.inr (htake _ h0)
        · rw [if_neg h]
          exact Or.inr (htake _ h)
  · rw [if_neg hb]
    exact Or.inr (htake _ hb)

/-- The loop of `io.ReadAtLeast` ends with an error or with enough bytes. -/
theorem readAtLeastLoop_exit (fuel m : Nat) (acc : List Byte) (b : Reader) (rd : NetConn)
    (hf : m ≤ acc.length + fuel) :
    (readAtLeastLoop fuel m acc b rd).1.2 ≠ none ∨
      m ≤ (readAtLeastLoop fuel m acc b rd).1.1.length := by
  induction fuel generalizing acc b rd with
  | zero =>
    unfold readAtLeastLoop
    right
    simpa using hf
  | succ f ih =>
    unfold readAtLeastLoop
    by_cases hlt : acc.length < m
    · rw [if_pos hlt]
      dsimp only
      cases he : (Reader.Read (m - acc.length) b rd).1.2 with
      | some e => exact Or.inl (by simp)
      | none =>
        dsimp only
        apply ih
        rcases Reader.Read_progress (m - acc.length) b rd (by omega) with h | h
        · exact absurd he h
        · have hpos := List.length_pos.mpr h
          rw [List.length_append]
          omega
    · rw [if_neg hlt]
      right
      dsimp only
      omega

/-- The loop of `Discard` ends with nothing left to skip or with an error. -/
theorem Reader.discardLoop_exit (fuel remain : Nat) (b : Reader) (rd : NetConn)
    (hf : remain ≤ fuel) :
    (Reader.discardLoop fuel remain b rd).1.1 = 0 ∨
      (Reader.discardLoop fuel remain b rd).1.2 ≠ none := by
  induction fuel generalizing remain b rd with
  | zero =>
    unfold Reader.discardLoop
    left
    dsimp only
    omega
  | succ f ih =>
    unfold Reader.discardLoop
    dsimp only
    have hs : (if b.buf.length = 0 then b.fill rd else (b, rd)).1.err ≠ none ∨
        0 < (if b.buf.length = 0 then b.fill rd else (b, rd)).1.buf.length := by
      by_cases h0 : b.buf.length = 0
      · rw [if_pos h0]
        rcases Reader.fill_progress b rd (by rw [h0]; decide) with h | h
        · exact Or.inl h
        · right; omega
      · rw [if_neg h0]
        right
        dsimp only
        omega
    generalize (if b.buf.length = 0 then b.fill rd else (b, rd)) = s at hs ⊢
    by_cases hz : remain - min s.1.buf.length remain = 0
    · rw [if_pos hz]
      exact Or.inl rfl
    · rw [if_neg hz]
      by_cases he : s.1.err ≠ none
      · rw [if_pos he]
        exact Or.inr he
      · rw [if_neg he]
        apply ih
        rcases hs with h | h
        · exact absurd h he
        · omega

/-! ## The trust decision of Accept -/

theorem authLoop_false (rAddr : IP) (srcs : List IP) :
    authLoop rAddr srcs false = true ↔ ∃ a ∈ srcs, IPEqual a rAddr = true := by
  induction srcs with
  | nil => simp [authLoop]
  | cons x xs ih =>
    unfold authLoop
    by_cases hx : IPEqual x rAddr = true
    · rw [if_pos hx]
      simp only [true_iff]
      exact ⟨x, List.mem_cons_self x xs, hx⟩
    · rw [if_neg hx, ih]
      constructor
      · rintro ⟨a, ha, he⟩
        exact ⟨a, List.mem_cons_of_mem x ha, he⟩
      · rintro ⟨a, ha, he⟩
        rcases List.mem_cons.mp ha with h1 | h1
        · subst h1
          exact absurd he hx
        · exact ⟨a, h1, he⟩

theorem Accept_ok {l : Listener} {c : Conn} (h : Accept l = Except.ok c) :
    ∃ conn, l.Listener.next = Except.ok conn ∧ c.Conn = conn ∧ c.Reader = NewReader ∧
      c.srcAddr = none ∧ c.dstAddr = none ∧ c.once = false ∧
      c.readTimeout = l.ReadTimeout ∧
      c.useRemoteAddress = (match l.AuthSources with
        | some srcs => authLoop (rawPeerIP conn.remoteAddr) srcs false
        | none => true) := by
  unfold Accept at h
  cases hn : l.Listener.next with
  | error e =>
    rw [hn] at h
    cases h
  | ok conn =>
    rw [hn] at h
    dsimp only at h
    injection h with h
    subst h
    exact ⟨conn, rfl, rfl, rfl, rfl, rfl, rfl, rfl, rfl⟩

/-- A connection accepted on an open transport is fresh. -/
theorem Accept_fresh {l : Listener} {c : Conn} (h : Accept l = Except.ok c)
    (hopen : c.Conn.closed = false) : fresh c := by
  obtain ⟨_, _, _, h3, h4, h5, h6, _, _⟩ := Accept_ok h
  exact ⟨h3, hopen, h4, h5, h6⟩

/-- The loop of `Accept` as an existential: with `AuthSources` set, the
connection is trusted exactly when `net.IP.Equal` holds between some entry and
the parsed peer IP. -/
theorem accept_trust_loop (l : Listener) (c : Conn) (h : Accept l = Except.ok c) :
    (l.AuthSources = none → c.useRemoteAddress = true) ∧
      (∀ srcs, l.AuthSources = some srcs →
        (c.useRemoteAddress = true ↔
          ∃ a ∈ srcs, IPEqual a (rawPeerIP c.Conn.remoteAddr) = true)) := by
  obtain ⟨conn, _, hc, _, _, _, _, _, hu⟩ := Accept_ok h
  constructor
  · intro hnone
    rw [hu, hnone]
  · intro srcs hsome
    rw [hu, hsome, hc]
    exact authLoop_false _ srcs

theorem v4InV6Prefix_length : v4InV6Prefix.length = 12 := rfl

/-- `net.IP.Equal` against the nil IP holds for the nil IP only. -/
theorem IPEqual_nil (a : IP) : IPEqual a [] = true ↔ a = [] := by
  unfold IPEqual
  by_cases h0 : a.length = 0
  · have ha : a = [] := List.length_eq_zero.mp h0
    subst ha
    simp
  · have ha : a ≠ [] := fun h => h0 (by rw [h]; rfl)
    simp [h0, ha]

/-- `net.IP.Equal` against the 16-byte form of a 4-byte address `p` holds for
`p` and for that 16-byte form, and for nothing else. -/
theorem IPEqual_v4peer (a p : IP) (hp : p.length = 4) :
    IPEqual a (v4InV6Prefix ++ p) = true ↔ a = p ∨ a = v4InV6Prefix ++ p := by
  have hx : (v4InV6Prefix ++ p).length = 16 := by
    rw [List.length_append, v4InV6Prefix_length, hp]
  have htake : List.take 12 (v4InV6Prefix ++ p) = v4InV6Prefix :=
    List.take_left' v4InV6Prefix_length
  have hdrop : List.drop 12 (v4InV6Prefix ++ p) = p := List.drop_left' v4InV6Prefix_length
  unfold IPEqual
  rw [hx, htake, hdrop]
  by_cases h16 : a.length = 16
  · rw [if_pos h16]
    constructor
    · intro h
      exact Or.inr (of_decide_eq_true h)
    · rintro (h | h)
      · rw [h, hp] at h16
        omega
      · exact decide_eq_true h
  · rw [if_neg h16]
    by_cases h4 : a.length = 4
    · rw [if_pos ⟨h4, rfl⟩]
      constructor
      · intro h
        rw [Bool.and_eq_true] at h
        exact Or.inl (of_decide_eq_true h.2)
      · rintro (h | h)
        · rw [Bool.and_eq_true]
          exact ⟨decide_eq_true rfl, decide_eq_true h⟩
        · rw [h, hx] at h16
          exact absurd rfl h16
    · rw [if_neg (fun hc => h4 hc.1), if_neg (fun hc => h16 hc.1)]
      constructor
      · intro h
        cases h
      · rintro (h | h)
        · rw [h, hp] at h4
          exact absurd rfl h4
        · rw [h, hx] at h16
          exact absurd rfl h16

/-- `net.IP.Equal` against a 16-byte address `p` holds for `p` and for the
4-byte address of which `p` is the 16-byte form, and for nothing else. -/
theorem IPEqual_v6peer (a p : IP) (hp : p.length = 16) :
    IPEqual a p = true ↔ a = p ∨ v4InV6Prefix ++ a = p := by
  unfold IPEqual
  rw [hp]
  by_cases h16 : a.length = 16
  · rw [if_pos h16]
    constructor
    · intro h
      exact Or.inl (of_decide_eq_true h)
    · rintro (h | h)
      · exact decide_eq_true h
      · have hl := congrArg List.length h
        rw [List.length_append, v4InV6Prefix_length, hp, h16] at hl
        omega
  · rw [if_neg h16]
    by_cases h4 : a.length = 4
    · rw [if_pos ⟨h4, rfl⟩]
      constructor
      · intro h
        rw [Bool.and_eq_true] at h
        right
        have h1 := of_decide_eq_true h.1
        have h2 := of_decide_eq_true h.2
        rw [← h1, h2]
        exact List.take_append_drop 12 p
      · rintro (h | h)
        · rw [h, hp] at h16
          exact absurd rfl h16
        · rw [Bool.and_eq_true]
          rw [← h]
          exact ⟨decide_eq_true (List.take_left' v4InV6Prefix_length),
            decide_eq_true (List.drop_left' v4InV6Prefix_length).symm⟩
    · rw [if_neg (fun hc => h4 hc.1), if_neg (fun hc => h16 hc.1)]
      constructor
      · intro h
        cases h
      · rintro (h | h)
        · rw [h, hp] at h16
          exact absurd rfl h16
        · have hl := congrArg List.length h
          rw [List.length_append, v4InV6Prefix_length, hp] at hl
          omega

/-- C4, as stated, fails. The peer is `fe80::1%eth0`. With `fe80::1` as the
only authorized source the peer IP equals an entry, yet the connection is not
trusted; with the nil IP and 10.1.1.1 as authorized sources the peer IP equals
no entry, yet the connection is trusted. -/
theorem accept_zoned_peer :
    Accept (zonedListenerOf (some [linkLocal])) = Except.ok (zonedConnOf false) ∧
      (zonedConnOf false).Conn.remoteAddr.IP ∈ [linkLocal] ∧
      (zonedConnOf false).useRemoteAddress = false ∧
      Accept (zonedListenerOf (some [[], [10, 1, 1, 1]])) = Except.ok (zonedConnOf true) ∧
      (zonedConnOf true).Conn.remoteAddr.IP ∉ [[], [10, 1, 1, 1]] ∧
      (zonedConnOf true).useRemoteAddress = true :=
  ⟨rfl, by decide, rfl, rfl, by decide, rfl⟩

/-- C4, amended: on every successful `Accept`, the connection is trusted when
`AuthSources` is unset. When it is set: for a peer address without zone whose
IP is a 4-byte address `p`, the connection is trusted exactly when some entry
is `p` or the 16-byte form of `p`; for a peer address without zone whose IP is
a 16-byte address `p`, exactly when some entry is `p` or the 4-byte address of
which `p` is the 16-byte form; for a peer address with a zone, or whose IP has
another length, exactly when some entry is the nil IP. -/
theorem accept_trust_addresses (l : Listener) (c : Conn) (h : Accept l = Except.ok c) :
    (l.AuthSources = none → c.useRemoteAddress = true) ∧
      (∀ srcs, l.AuthSources = some srcs →
        (c.Conn.remoteAddr.Zone = "" → c.Conn.remoteAddr.IP.length = 4 →
          (c.useRemoteAddress = true ↔
            ∃ a ∈ srcs, a = c.Conn.remoteAddr.IP ∨
              a = v4InV6Prefix ++ c.Conn.remoteAddr.IP)) ∧
        (c.Conn.remoteAddr.Zone = "" → c.Conn.remoteAddr.IP.length = 16 →
          (c.useRemoteAddress = true ↔
            ∃ a ∈ srcs, a = c.Conn.remoteAddr.IP ∨
              v4InV6Prefix ++ a = c.Conn.remoteAddr.IP)) ∧
        (c.Conn.remoteAddr.Zone ≠ "" ∨
            (c.Conn.remoteAddr.IP.length ≠ 4 ∧ c.Conn.remoteAddr.IP.length ≠ 16) →
          (c.useRemoteAddress = true ↔ [] ∈ srcs))) := by
  obtain ⟨hnone, hsome⟩ := accept_trust_loop l c h
  refine ⟨hnone, ?_⟩
  intro srcs hs
  have hiff := hsome srcs hs
  refine ⟨?_, ?_, ?_⟩
  · intro hz h4
    have hraw : rawPeerIP c.Conn.remoteAddr = v4InV6Prefix ++ c.Conn.remoteAddr.IP := by
      unfold rawPeerIP
      rw [if_pos hz, if_pos h4]
    rw [hiff, hraw]
    constructor
    · rintro ⟨a, ha, he⟩
      exact ⟨a, ha, (IPEqual_v4peer a _ h4).mp he⟩
    · rintro ⟨a, ha, he⟩
      exact ⟨a, ha, (IPEqual_v4peer a _ h4).mpr he⟩
  · intro hz h16
    have hraw : rawPeerIP c.Conn.remoteAddr = c.Conn.remoteAddr.IP := by
      unfold rawPeerIP
      rw [if_pos hz, if_neg (by omega), if_pos h16]
    rw [hiff, hraw]
    constructor
    · rintro ⟨a, ha, he⟩
      exact ⟨a, ha, (IPEqual_v6peer a _ h16).mp he⟩
    · rintro ⟨a, ha, he⟩
      exact ⟨a, ha, (IPEqual_v6peer a _ h16).mpr he⟩
  · intro hbad
    have hraw : rawPeerIP c.Conn.remoteAddr = [] := by
      unfold rawPeerIP
      rcases hbad with hz | ⟨h4, h16⟩
      · rw [if_neg hz]
      · by_cases hz : c.Conn.remoteAddr.Zone = ""
        · rw [if_pos hz, if_neg h4, if_neg h16]
        · rw [if_neg hz]
    rw [hiff, hraw]
    constructor
    · rintro ⟨a, ha, he⟩
      rw [(IPEqual_nil a).mp he] at ha
      exact ha
    · intro hmem
      exact ⟨[], hmem, (IPEqual_nil []).mpr rfl⟩

/-- C4, amended, on a listener that authorizes 192.0.2.7 and 10.1.1.1: the
peer 192.0.2.7 is trusted; and on the peer `fe80::1%eth0` with `fe80::1`
authorized: not trusted, the nil IP is no entry. -/
theorem accept_trust_addresses_witness :
    Accept (listenerOf (some [[192, 0, 2, 7], [10, 1, 1, 1]]) []) =
        Except.ok (connOf [] true) ∧
      ((connOf [] true).useRemoteAddress = true ↔
        ∃ a ∈ [[192, 0, 2, 7], [10, 1, 1, 1]], a = (connOf [] true).Conn.remoteAddr.IP ∨
          a = v4InV6Prefix ++ (connOf [] true).Conn.remoteAddr.IP) ∧
      ((zonedConnOf false).useRemoteAddress = true ↔ [] ∈ [linkLocal]) :=
  ⟨rfl,
    ((accept_trust_addresses (listenerOf (some [[192, 0, 2, 7], [10, 1, 1, 1]]) [])
      (connOf [] true) rfl).2 [[192, 0, 2, 7], [10, 1, 1, 1]] rfl).1 rfl rfl,
    ((accept_trust_addresses (zonedListenerOf (some [linkLocal])) (zonedConnOf false)
      rfl).2 [linkLocal] rfl).2.2 (Or.inl (by decide))⟩

/-- C5, as stated, fails: with `AuthSources` present but empty the accepted
connection is not trusted. -/
theorem accept_empty_sources_untrusted :
    Accept (listenerOf (some []) []) = Except.ok (connOf [] false) ∧
      (connOf [] false).useRemoteAddress = false :=
  ⟨rfl, rfl⟩

/-- C5, amended: with `AuthSources` unset (the nil slice) every accepted
connection is trusted, whatever the peer address; with `AuthSources` present
but empty no accepted connection is trusted. -/
theorem accept_unset_sources (l : Listener) (c : Conn) (h : Accept l = Except.ok c) :
    (l.AuthSources = none → c.useRemoteAddress = true) ∧
      (l.AuthSources = some [] → c.useRemoteAddress = false) := by
  obtain ⟨conn, _, _, _, _, _, _, _, hu⟩ := Accept_ok h
  constructor
  · intro hnone
    rw [hu, hnone]
  · intro hsome
    rw [hu, hsome]
    rfl

/-- C5, amended, on a listener without authorized sources. -/
theorem accept_unset_sources_witness :
    Accept (listenerOf none []) = Except.ok (connOf [] true) ∧
      (connOf [] true).useRemoteAddress = true :=
  ⟨rfl, (accept_unset_sources (listenerOf none []) (connOf [] true) rfl).1 rfl⟩

/-! ## Streams without the signature -/

/-- C6: on a connection from `Accept` whose stream has at least 12 bytes and
does not open with the signature, the scan returns no error, consumes nothing,
records no address and leaves the transport open; reading the connection to
its end (any slice length `k > 0`) delivers exactly the original bytes in
order, and `RemoteAddr` returns the peer address of the transport, whatever
the trust flag. -/
theorem passthrough_without_signature (c : Conn) (k fuel : Nat) (hf : fresh c)
    (hlen : 12 ≤ c.Conn.incoming.flatten.length)
    (hsig : c.Conn.incoming.flatten.take 12 ≠ v2sig) (hk : 0 < k)
    (hfuel : c.Conn.incoming.flatten.length < fuel) :
    (scanProxyData c).1 = none ∧
      pending (scanProxyData c).2 = c.Conn.incoming.flatten ∧
      (scanProxyData c).2.srcAddr = none ∧ (scanProxyData c).2.dstAddr = none ∧
      (scanProxyData c).2.Conn.closed = false ∧
      (readAll k fuel c).1 = (c.Conn.incoming.flatten, some c.Conn.final) ∧
      (RemoteAddr c).1 = some c.Conn.remoteAddr := by
  obtain ⟨h1, h2, h3⟩ := scan_nosig (fresh_ready hf) hlen hsig
  obtain ⟨s1, s2, _, _, _, s6, _, s8, _⟩ := h3
  obtain ⟨_, hcl, hsrc, hdst, hon⟩ := hf
  refine ⟨h1, h2.2.2, s1.trans hsrc, s2.trans hdst, h2.1, ?_, ?_⟩
  · exact readAll_scanned k fuel hk hon h1 h2 s6 hfuel
  · rw [RemoteAddr_first hon h1]
    dsimp only
    rw [if_neg (fun hc => hc.1 (s1.trans hsrc)), s8]

/-- C6 on the request line alone, untrusted or trusted alike. -/
theorem passthrough_without_signature_witness :
    fresh (connOf [httpGet] false) ∧ 12 ≤ httpGet.length ∧ httpGet.take 12 ≠ v2sig ∧
      (readAll 7 17 (connOf [httpGet] false)).1 = (httpGet, some Error.EOF) ∧
      (RemoteAddr (connOf [httpGet] false)).1 =
        some { IP := [192, 0, 2, 7], Port := 40000, Zone := "" } :=
  have h := passthrough_without_signature (connOf [httpGet] false) 7 17 (by decide)
    (by decide) (by decide) (by decide) (by decide)
  ⟨by decide, by decide, by decide, h.2.2.2.2.2.1, h.2.2.2.2.2.2⟩

/-! ## Unsupported address families -/

/-- C7, the code at a failing input: a PROXY header of family `0x00` that
declares 2 octets, those 2 octets and the payload `G`, all in one segment.
The scan reports `ErrMalformedProxyHeader` and closes the connection, the
first `Read` returns that error and no byte: the comparison of the declared
length with `Buffered` is the wrong way round. -/
theorem unsupported_family_with_payload_rejected :
    unspecExample = v2sig ++ [0x21, 0x00, 0x00, 0x02] ++ [0xAA, 0xBB] ++ [0x47] ∧
      (scanProxyData (connOf [unspecExample] true)).1 =
        some Error.ErrMalformedProxyHeader ∧
      (scanProxyData (connOf [unspecExample] true)).2.Conn.closed = true ∧
      (Read 16 (connOf [unspecExample] true)).1 =
        ([], some Error.ErrMalformedProxyHeader) := by
  decide

/-- C8, the code at a failing input: the fixed header of a PROXY header of
family `0x00` that declares 2 octets arrives alone, so nothing is buffered
after it; the two octets and the payload `G` arrive in a second segment. The
scan returns no error and leaves the connection open, and it has read the
second segment from the transport to discard the two octets. -/
theorem unsupported_family_reads_on :
    (connOf [v2sig ++ [0x21, 0x00, 0x00, 0x02], [0xAA, 0xBB, 0x47]] true).Conn.incoming =
        [v2sig ++ [0x21, 0x00, 0x00, 0x02], [0xAA, 0xBB, 0x47]] ∧
      (ReadFull 16 (Reader.Peek 12 NewReader
        (transportOf [v2sig ++ [0x21, 0x00, 0x00, 0x02], [0xAA, 0xBB, 0x47]])).2.1
        (Reader.Peek 12 NewReader
        (transportOf [v2sig ++ [0x21, 0x00, 0x00, 0x02], [0xAA, 0xBB, 0x47]])).2.2).2.1.Buffered
        = 0 ∧
      (scanProxyData
        (connOf [v2sig ++ [0x21, 0x00, 0x00, 0x02], [0xAA, 0xBB, 0x47]] true)).1 = none ∧
      (scanProxyData
        (connOf [v2sig ++ [0x21, 0x00, 0x00, 0x02], [0xAA, 0xBB, 0x47]] true)).2.Conn.closed
          = false ∧
      (scanProxyData
        (connOf [v2sig ++ [0x21, 0x00, 0x00, 0x02], [0xAA, 0xBB, 0x47]] true)).2.Conn.incoming
          = [] ∧
      (scanProxyData
        (connOf [v2sig ++ [0x21, 0x00, 0x00, 0x02], [0xAA, 0xBB, 0x47]] true)).2.Reader.buf
          = [0x47] := by
  decide

/-! ## LOCAL headers -/

/-- C9, as stated, fails: after a LOCAL header that declares one header octet
`0xEE`, followed by the payload `G`, reading to the end delivers `0xEE` and
`G`, not the payload alone. -/
theorem local_header_bytes_leak :
    localExample = v2sig ++ [0x20, 0x00, 0x00, 0x01] ++ [0xEE] ++ [0x47] ∧
      be16 0x00 0x01 = [(0xEE : Byte)].length ∧
      (readAll 16 3 (connOf [localExample] true)).1 = ([0xEE, 0x47], some Error.EOF) ∧
      (readAll 16 3 (connOf [localExample] true)).1.1 ≠ [0x47] := by
  decide

/-- C9, amended: on a LOCAL header (`verCmd = 0x20`, any family octet) that
declares `hdr.length` octets, followed by those octets `hdr` and the payload
`P`, the scan returns no error, consumes the 16 octets of the fixed header
and nothing else, and records no address; reading the connection to its end
delivers exactly `hdr ++ P` (exactly `P` when the declared length is 0), and
`RemoteAddr` returns the peer address of the transport, whatever the trust
flag. -/
theorem local_header_passthrough (c : Conn) (fam l1 l2 : Byte) (hdr P : List Byte)
    (k fuel : Nat) (hf : fresh c)
    (hs : c.Conn.incoming.flatten = v2sig ++ [0x20, fam, l1, l2] ++ hdr ++ P)
    (hL : be16 l1 l2 = hdr.length) (hk : 0 < k) (hfuel : hdr.length + P.length < fuel) :
    (scanProxyData c).1 = none ∧ pending (scanProxyData c).2 = hdr ++ P ∧
      (scanProxyData c).2.srcAddr = none ∧ (scanProxyData c).2.dstAddr = none ∧
      (scanProxyData c).2.Conn.closed = false ∧
      (readAll k fuel c).1 = (hdr ++ P, some c.Conn.final) ∧
      (hdr = [] → (readAll k fuel c).1 = (P, some c.Conn.final)) ∧
      (RemoteAddr c).1 = some c.Conn.remoteAddr := by
  have _ := hL
  have hr := fresh_ready hf
  rw [hs] at hr
  have hshape : v2sig ++ [0x20, fam, l1, l2] ++ hdr ++ P =
      v2sig ++ 0x20 :: fam :: l1 :: l2 :: (hdr ++ P) := by
    simp only [List.append_assoc, List.cons_append, List.nil_append]
  rw [hshape] at hr
  obtain ⟨h1, h2, h3⟩ := scan_local_path hr
  obtain ⟨s1, s2, _, _, _, s6, _, s8, _⟩ := h3
  obtain ⟨_, hcl, hsrc, hdst, hon⟩ := hf
  have hall := readAll_scanned k fuel hk hon h1 h2 s6
    (by rw [List.length_append]; exact hfuel)
  refine ⟨h1, h2.2.2, s1.trans hsrc, s2.trans hdst, h2.1, hall, ?_, ?_⟩
  · intro he
    rw [hall, he, List.nil_append]
  · rw [RemoteAddr_first hon h1]
    dsimp only
    rw [if_neg (fun hc => hc.1 (s1.trans hsrc)), s8]

/-- C9, amended, on a LOCAL header with declared length 0 before the request
line, on a trusted connection. -/
theorem local_header_passthrough_witness :
    fresh (connOf [v2sig ++ [0x20, 0x00, 0x00, 0x00] ++ httpGet] true) ∧
      (readAll 4 17 (connOf [v2sig ++ [0x20, 0x00, 0x00, 0x00] ++ httpGet] true)).1 =
        (httpGet, some Error.EOF) ∧
      (RemoteAddr (connOf [v2sig ++ [0x20, 0x00, 0x00, 0x00] ++ httpGet] true)).1 =
        some { IP := [192, 0, 2, 7], Port := 40000, Zone := "" } :=
  have h := local_header_passthrough
    (connOf [v2sig ++ [0x20, 0x00, 0x00, 0x00] ++ httpGet] true) 0x00 0x00 0x00 [] httpGet
    4 17 (by decide) (by decide) (by decide) (by decide) (by decide)
  ⟨by decide, h.2.2.2.2.2.2.1 rfl, h.2.2.2.2.2.2.2⟩

/-! ## A fixed header cut short -/

/-- C10, the code at a failing input: the signature, one more octet, then end
of input. The scan closes the connection but returns the raw
`io.ErrUnexpectedEOF`, not `ErrMalformedProxyHeader`; the first `Read` returns
no byte and that raw error, and a later `Read` fails on the closed
connection. -/
theorem truncated_header_raw_error :
    truncatedExample = v2sig ++ [0x21] ∧
      (scanProxyData (connOf [truncatedExample] true)).1 = some Error.ErrUnexpectedEOF ∧
      (scanProxyData (connOf [truncatedExample] true)).1 ≠
        some Error.ErrMalformedProxyHeader ∧
      (scanProxyData (connOf [truncatedExample] true)).2.Conn.closed = true ∧
      (Read 16 (connOf [truncatedExample] true)).1 = ([], some Error.ErrUnexpectedEOF) ∧
      (Read 16 (Read 16 (connOf [truncatedExample] true)).2).1 =
        ([], some Error.ErrClosed) := by
  decide

/-! ## Streams that end before the signature window is full -/

theorem Reader.peekLoop_err (fuel n : Nat) (b : Reader) (rd : NetConn) (h : b.err ≠ none) :
    Reader.peekLoop fuel n b rd = (b, rd) := by
  cases fuel with
  | zero => rfl
  | succ f =>
    unfold Reader.peekLoop
    rw [if_neg (fun hc => h hc.2.2)]

theorem Reader.peekLoop_short (fuel n : Nat) {b : Reader} {rd : NetConn} {s : List Byte}
    (h : Ready b rd s) (hn : s.length < n) (hsz : n ≤ defaultBufSize)
    (hf : s.length - b.buf.length < fuel) :
    (Reader.peekLoop fuel n b rd).1.buf = s ∧
      (Reader.peekLoop fuel n b rd).1.err = some rd.final ∧
      (Reader.peekLoop fuel n b rd).2.closed = false ∧
      (Reader.peekLoop fuel n b rd).2.incoming.flatten = [] := by
  induction fuel generalizing b rd with
  | zero => omega
  | succ f ih =>
    have hlen : s.length = b.buf.length + rd.incoming.flatten.length := by
      rw [← h.2.2, List.length_append]
    unfold Reader.peekLoop
    have hcond : b.buf.length < n ∧ b.buf.length < defaultBufSize ∧ b.err = none :=
      ⟨by omega, by omega, h.2.1⟩
    rw [if_pos hcond]
    by_cases hflat : rd.incoming.flatten = []
    · have hk : 0 < defaultBufSize - b.buf.length := by omega
      obtain ⟨r1, r2⟩ := NetConn.Read_final h.1 hk hflat
      have hcl := (NetConn.Read_link (defaultBufSize - b.buf.length) rd).2.1
      have hfill : b.fill rd = ({ buf := b.buf ++ [], err := some rd.final },
          (rd.Read (defaultBufSize - b.buf.length)).2) := by
        unfold Reader.fill
        dsimp only
        rw [r1]
      rw [hfill, Reader.peekLoop_err f n _ _ (by simp)]
      refine ⟨?_, rfl, hcl.trans h.1, r2⟩
      have hs := h.2.2
      rw [hflat] at hs
      simpa using hs
    · have hpos : 0 < rd.incoming.flatten.length := List.length_pos.mpr hflat
      obtain ⟨hr, hgrow⟩ := Reader.fill_ready h (by omega) (by omega)
      have hfin := (Reader.fill_sameLink b rd).1
      obtain ⟨i1, i2, i3, i4⟩ := ih hr (by omega)
      exact ⟨i1, i2.trans (by rw [hfin]), i3, i4⟩

/-- `Peek n` on a stream that ends before `n` bytes: the bytes there are and
the terminal error of the transport; nothing is consumed and the pending
error of the reader is cleared. -/
theorem Reader.Peek_short (n : Nat) {b : Reader} {rd : NetConn} {s : List Byte}
    (h : Ready b rd s) (hn : s.length < n) (hsz : n ≤ defaultBufSize) :
    (Reader.Peek n b rd).1 = (s, some rd.final) ∧
      Ready (Reader.Peek n b rd).2.1 (Reader.Peek n b rd).2.2 s := by
  obtain ⟨h1, h2, h3, h4⟩ := Reader.peekLoop_short n n h hn hsz (by omega)
  unfold Reader.Peek
  have c1 : ¬ defaultBufSize < n := by omega
  have c2 : (Reader.peekLoop n n b rd).1.buf.length < n := by rw [h1]; exact hn
  dsimp only
  rw [if_neg c1, if_pos c2, h1, h2]
  refine ⟨rfl, h3, rfl, ?_⟩
  dsimp only
  rw [h4, List.append_nil]

/-- The scan on a stream that ends before 12 bytes: the terminal error of the
transport is returned, nothing is consumed, the connection stays open. -/
theorem scan_short {c : Conn} {s : List Byte} (h : Ready c.Reader c.Conn s)
    (hlen : s.length < 12) (hfin : c.Conn.final ≠ Error.ErrBufferFull) :
    (scanProxyData c).1 = some c.Conn.final ∧
      Ready (scanProxyData c).2.Reader (scanProxyData c).2.Conn s ∧
      sameConn c (scanProxyData c).2 := by
  unfold scanProxyData
  obtain ⟨hsame, hrd, hinc⟩ := deadline_step c
  have h0 : Ready (if c.readTimeout ≠ 0 then
      { c with Conn := c.Conn.SetReadDeadline (c.Conn.now + c.readTimeout) } else c).Reader
      (if c.readTimeout ≠ 0 then
      { c with Conn := c.Conn.SetReadDeadline (c.Conn.now + c.readTimeout) } else c).Conn
      s := by
    refine ⟨hsame.2.2.2.2.2.2.1.trans h.1, ?_, ?_⟩
    · rw [hrd]; exact h.2.1
    · rw [hrd, hinc]; exact h.2.2
  dsimp only
  generalize (if c.readTimeout ≠ 0 then
      { c with Conn := c.Conn.SetReadDeadline (c.Conn.now + c.readTimeout) } else c) = c0
      at h0 hsame ⊢
  rw [v2sig_length]
  obtain ⟨hp1, hp2⟩ := Reader.Peek_short 12 h0 hlen (by decide)
  have hpl := Reader.Peek_sameLink 12 c0.Reader c0.Conn
  generalize Reader.Peek 12 c0.Reader c0.Conn = p at hp1 hp2 hpl ⊢
  obtain ⟨⟨pb, pe⟩, pr, pc⟩ := p
  simp only [Prod.mk.injEq] at hp1
  obtain ⟨rfl, rfl⟩ := hp1
  dsimp only at hp2 hpl ⊢
  obtain ⟨s1, s2, s3, s4, s5, s6, s7, s8, s9⟩ := hsame
  obtain ⟨p1, p2, _, p4, p5⟩ := hpl
  have hfin0 : c0.Conn.final ≠ Error.ErrBufferFull := by rw [s6]; exact hfin
  rw [if_neg hfin0]
  refine ⟨congrArg some s6, hp2, ?_⟩
  exact ⟨s1, s2, s3, s4, s5, p1.trans s6, p2.trans s7, p4.trans s8, p5.trans s9⟩

/-! ## More paths of the scan -/

/-- The scan on a fixed header whose command octet is neither `0x20` nor
`0x21`: `ErrUnsupportedProto`, nothing recorded, the connection not closed. -/
theorem scan_badcmd_path {c : Conn} {vc fam l1 l2 : Byte} {rest : List Byte}
    (h : Ready c.Reader c.Conn (v2sig ++ vc :: fam :: l1 :: l2 :: rest))
    (h20 : vc ≠ 0x20) (h21 : vc ≠ 0x21) :
    (scanProxyData c).1 = some Error.ErrUnsupportedProto ∧
      Ready (scanProxyData c).2.Reader (scanProxyData c).2.Conn rest ∧
      sameConn c (scanProxyData c).2 := by
  obtain ⟨c2, hr, hs, heq⟩ := scan_header h
  rw [heq]
  unfold afterHeader
  dsimp only
  rw [if_neg h20, if_neg h21]
  exact ⟨rfl, hr, hs⟩

/-- The scan on a PROXY header whose family octet is neither `0x11` nor
`0x21`: no address is recorded, and the scan returns either no error or
`ErrMalformedProxyHeader`. -/
theorem scan_other_family_path {c : Conn} {fam l1 l2 : Byte} {rest : List Byte}
    (h : Ready c.Reader c.Conn (v2sig ++ 0x21 :: fam :: l1 :: l2 :: rest))
    (h11 : fam ≠ 0x11) (h21 : fam ≠ 0x21) :
    ((scanProxyData c).1 = none ∨
        (scanProxyData c).1 = some Error.ErrMalformedProxyHeader) ∧
      (scanProxyData c).2.srcAddr = c.srcAddr ∧ (scanProxyData c).2.dstAddr = c.dstAddr := by
  obtain ⟨c2, hr, hs, heq⟩ := scan_header h
  rw [heq]
  unfold afterHeader
  dsimp only
  rw [if_neg (by decide), if_pos rfl, if_neg h11, if_neg h21]
  split
  · exact ⟨Or.inr rfl, hs.1, hs.2.1⟩
  · exact ⟨Or.inl rfl, hs.1, hs.2.1⟩

/-- The scan on a PROXY header for TCP over IPv6 with its 36 address octets
`a`: header and address block are consumed, the addresses recorded. -/
theorem scan_ip6_path {c : Conn} {l1 l2 : Byte} {a rest : List Byte}
    (h : Ready c.Reader c.Conn (v2sig ++ 0x21 :: 0x21 :: l1 :: l2 :: (a ++ rest)))
    (ha : a.length = 36) :
    (scanProxyData c).1 = none ∧
      Ready (scanProxyData c).2.Reader (scanProxyData c).2.Conn rest ∧
      (scanProxyData c).2.srcAddr =
        some { IP := a.take 16, Port := 256 * (a.getD 32 0).val + (a.getD 33 0).val,
               Zone := "" } ∧
      (scanProxyData c).2.dstAddr =
        some { IP := (a.drop 16).take 16,
               Port := 256 * (a.getD 34 0).val + (a.getD 35 0).val, Zone := "" } ∧
      (scanProxyData c).2.Conn.final = c.Conn.final ∧
      (scanProxyData c).2.Conn.remoteAddr = c.Conn.remoteAddr := by
  obtain ⟨c2, hr, hs, heq⟩ := scan_header h
  rw [heq]
  unfold afterHeader
  dsimp only
  rw [if_neg (by decide), if_pos rfl, if_neg (by decide), if_pos rfl]
  obtain ⟨ha1, ha2⟩ := ReadFull_ready 36 hr (by rw [List.length_append]; omega)
  have hal := ReadFull_sameLink 36 c2.Reader c2.Conn
  rw [List.take_left' ha] at ha1
  rw [List.drop_left' ha] at ha2
  generalize ReadFull 36 c2.Reader c2.Conn = r at ha1 ha2 hal ⊢
  obtain ⟨⟨ab, ae⟩, ar, ac⟩ := r
  simp only [Prod.mk.injEq] at ha1
  obtain ⟨rfl, rfl⟩ := ha1
  dsimp only at ha2 hal ⊢
  obtain ⟨s1, s2, s3, s4, s5, s6, s7, s8, s9⟩ := hs
  obtain ⟨p1, p2, _, p4, p5⟩ := hal
  exact ⟨rfl, ha2, rfl, rfl, p1.trans s6, p4.trans s8⟩

/-- The read deadline after the scan, whatever the stream holds: the clock
reading plus the timeout when the timeout is not zero, the deadline of before
otherwise. -/
theorem scan_deadline (c : Conn) :
    (scanProxyData c).2.Conn.readDeadline =
      if c.readTimeout ≠ 0 then some (c.Conn.now + c.readTimeout)
      else c.Conn.readDeadline := by
  unfold scanProxyData
  have hd : (if c.readTimeout ≠ 0 then
      { c with Conn := c.Conn.SetReadDeadline (c.Conn.now + c.readTimeout) } else c
        ).Conn.readDeadline =
      if c.readTimeout ≠ 0 then some (c.Conn.now + c.readTimeout)
      else c.Conn.readDeadline := by
    split <;> rfl
  dsimp only
  generalize (if c.readTimeout ≠ 0 then
      { c with Conn := c.Conn.SetReadDeadline (c.Conn.now + c.readTimeout) } else c) = c0
      at hd ⊢
  obtain ⟨-, -, p3, -, -⟩ := Reader.Peek_sameLink v2sig.length c0.Reader c0.Conn
  generalize Reader.Peek v2sig.length c0.Reader c0.Conn = p at p3 ⊢
  obtain ⟨-, -, q3, -, -⟩ := ReadFull_sameLink 16 p.2.1 p.2.2
  generalize ReadFull 16 p.2.1 p.2.2 = hdr at q3 ⊢
  obtain ⟨-, -, a3, -, -⟩ := ReadFull_sameLink 12 hdr.2.1 hdr.2.2
  generalize ReadFull 12 hdr.2.1 hdr.2.2 = r4 at a3 ⊢
  obtain ⟨-, -, b3, -, -⟩ := ReadFull_sameLink 36 hdr.2.1 hdr.2.2
  generalize ReadFull 36 hdr.2.1 hdr.2.2 = r6 at b3 ⊢
  obtain ⟨-, -, d3, -, -⟩ := Reader.Discard_sameLink (decodeHdr hdr.1.1).Len hdr.2.1 hdr.2.2
  generalize Reader.Discard (decodeHdr hdr.1.1).Len hdr.2.1 hdr.2.2 = d at d3 ⊢
  rw [← hd]
  repeat' split
  all_goals simp only [Close, NetConn.Close, *]

/-! ## Calls after the gate has fired -/

theorem NetConn.Read_keeps (k : Nat) (rd : NetConn) :
    (rd.Read k).1.1 ++ (rd.Read k).2.incoming.flatten = rd.incoming.flatten := by
  unfold NetConn.Read
  split
  · rfl
  · split
    · rfl
    · cases hseg : nextSegment rd.incoming with
      | none =>
        dsimp only
        rw [nextSegment_none hseg]
        rfl
      | some p =>
        obtain ⟨seg, rest⟩ := p
        obtain ⟨_, hs2⟩ := nextSegment_some hseg
        dsimp only
        rw [hs2]
        by_cases hle : seg.length ≤ k
        · rw [if_pos hle, List.take_of_length_le hle]
        · rw [if_neg hle, List.flatten_cons, ← List.append_assoc, List.take_append_drop]

/-- A read of the buffered reader hands over bytes from the front of what is
pending and loses none, in any state. -/
theorem Reader.Read_conserve (k : Nat) (b : Reader) (rd : NetConn) :
    (Reader.Read k b rd).1.1 ++
        ((Reader.Read k b rd).2.1.buf ++ (Reader.Read k b rd).2.2.incoming.flatten) =
      b.buf ++ rd.incoming.flatten := by
  unfold Reader.Read
  split
  · split <;> rfl
  · split
    · rename_i hb
      rw [hb]
      split
      · rfl
      · split
        · exact NetConn.Read_keeps k rd
        · dsimp only
          split
          · rename_i h0
            have hc := NetConn.Read_keeps defaultBufSize rd
            rw [h0] at hc
            exact hc
          · dsimp only
            rw [← List.append_assoc, List.take_append_drop]
            exact NetConn.Read_keeps defaultBufSize rd
    · dsimp only
      rw [← List.append_assoc, List.take_append_drop]

theorem RemoteAddr_done {c : Conn} (h : c.once = true) :
    RemoteAddr c =
      (if c.srcAddr ≠ none ∧ c.useRemoteAddress = true then c.srcAddr
        else some c.Conn.remoteAddr, c) := by
  unfold RemoteAddr
  rw [onceDo_done h]
  dsimp only
  split <;> rfl

theorem call_done {c : Conn} (x : Call) (h : c.once = true) : call x c = plainCall x c := by
  cases x with
  | read k =>
    simp only [call, plainCall]
    rw [Read_done k h]
  | remoteAddr =>
    simp only [call, plainCall]
    rw [RemoteAddr_done h]

theorem plainCall_keeps (x : Call) (c : Conn) :
    (plainCall x c).2.once = c.once ∧ (plainCall x c).2.srcAddr = c.srcAddr ∧
      (plainCall x c).2.dstAddr = c.dstAddr ∧
      (plainCall x c).2.useRemoteAddress = c.useRemoteAddress := by
  cases x <;> exact ⟨rfl, rfl, rfl, rfl⟩

theorem plainCall_conserve (x : Call) (c : Conn) :
    delivered [(plainCall x c).1] ++ pending (plainCall x c).2 = pending c := by
  cases x with
  | read k =>
    simp only [plainCall, delivered, pending, List.append_nil]
    exact Reader.Read_conserve k c.Reader c.Conn
  | remoteAddr => rfl

theorem delivered_cons (r : Reply) (rs : List Reply) :
    delivered (r :: rs) = delivered [r] ++ delivered rs := by
  cases r with
  | bytes bs e => simp [delivered]
  | addr a => simp [delivered]

theorem calls_done (xs : List Call) {c : Conn} (h : c.once = true) :
    calls xs c = plainCalls xs c := by
  induction xs generalizing c with
  | nil => rfl
  | cons x xs ih =>
    unfold calls plainCalls
    rw [call_done x h]
    have hk := (plainCall_keeps x c).1
    rw [ih (hk.trans h)]

theorem plainCalls_keeps (xs : List Call) (c : Conn) :
    (plainCalls xs c).2.once = c.once ∧ (plainCalls xs c).2.srcAddr = c.srcAddr ∧
      (plainCalls xs c).2.dstAddr = c.dstAddr ∧
      (plainCalls xs c).2.useRemoteAddress = c.useRemoteAddress := by
  induction xs generalizing c with
  | nil => exact ⟨rfl, rfl, rfl, rfl⟩
  | cons x xs ih =>
    unfold plainCalls
    obtain ⟨k1, k2, k3, k4⟩ := plainCall_keeps x c
    obtain ⟨i1, i2, i3, i4⟩ := ih (plainCall x c).2
    exact ⟨i1.trans k1, i2.trans k2, i3.trans k3, i4.trans k4⟩

theorem plainCalls_conserve (xs : List Call) (c : Conn) :
    delivered (plainCalls xs c).1 ++ pending (plainCalls xs c).2 = pending c := by
  induction xs generalizing c with
  | nil => rfl
  | cons x xs ih =>
    unfold plainCalls
    dsimp only
    rw [delivered_cons, List.append_assoc, ih, plainCall_conserve]

/-- The first call on a connection: the scan, then either the failure reply
or the body of the call on the scanned connection. -/
theorem call_first {c : Conn} (x : Call) (h : c.once = false) :
    call x c =
      match (scanProxyData c).1 with
      | some e => (failedReply x e, { (scanProxyData c).2 with once := true })
      | none => plainCall x { (scanProxyData c).2 with once := true } := by
  cases x with
  | read k =>
    simp only [call]
    unfold Read
    rw [onceDo_first h]
    dsimp only
    cases (scanProxyData c).1 <;> rfl
  | remoteAddr =>
    simp only [call]
    unfold RemoteAddr
    rw [onceDo_first h]
    dsimp only
    cases (scanProxyData c).1 with
    | some e => rfl
    | none =>
      simp only [plainCall]
      split <;> rfl

/-! ## An address block cut short -/

/-- C11, the code at a failing input: a PROXY header for TCP over IPv4 (and
one for TCP over IPv6) after which the stream ends at once, with no address
octet. The scan closes the connection and records nothing, but it returns the
raw `io.EOF`, not `ErrMalformedProxyHeader`: only `io.ErrUnexpectedEOF` is
mapped, and `io.ReadFull` reports that only after a first octet, as the same
header followed by one address octet shows. -/
theorem empty_address_block_raw_eof :
    (scanProxyData (connOf [v2sig ++ [0x21, 0x11, 0x00, 0x0C]] true)).1 = some Error.EOF ∧
      (scanProxyData (connOf [v2sig ++ [0x21, 0x11, 0x00, 0x0C]] true)).2.Conn.closed
        = true ∧
      (scanProxyData (connOf [v2sig ++ [0x21, 0x11, 0x00, 0x0C]] true)).2.srcAddr = none ∧
      (scanProxyData (connOf [v2sig ++ [0x21, 0x11, 0x00, 0x0C]] true)).2.dstAddr = none ∧
      (scanProxyData (connOf [v2sig ++ [0x21, 0x21, 0x00, 0x24]] true)).1 = some Error.EOF ∧
      (scanProxyData (connOf [v2sig ++ [0x21, 0x11, 0x00, 0x0C, 10]] true)).1 =
        some Error.ErrMalformedProxyHeader := by
  decide

/-! ## Unknown commands -/

/-- C12: on a connection from `Accept` whose stream starts with the signature
and a complete fixed header whose `verCmd` octet is neither `0x20` nor `0x21`,
the scan fails with `ErrUnsupportedProto` and records no address. -/
theorem unknown_command_unsupported (c : Conn) (vc fam l1 l2 : Byte) (rest : List Byte)
    (hf : fresh c) (hs : c.Conn.incoming.flatten = v2sig ++ [vc, fam, l1, l2] ++ rest)
    (h20 : vc ≠ 0x20) (h21 : vc ≠ 0x21) :
    (scanProxyData c).1 = some Error.ErrUnsupportedProto ∧
      (scanProxyData c).2.srcAddr = none ∧ (scanProxyData c).2.dstAddr = none := by
  have hr := fresh_ready hf
  rw [hs] at hr
  have hshape : v2sig ++ [vc, fam, l1, l2] ++ rest = v2sig ++ vc :: fam :: l1 :: l2 :: rest := by
    simp only [List.append_assoc, List.cons_append, List.nil_append]
  rw [hshape] at hr
  obtain ⟨h1, _, h3⟩ := scan_badcmd_path hr h20 h21
  exact ⟨h1, h3.1.trans hf.2.2.1, h3.2.1.trans hf.2.2.2.1⟩

/-- C12 on the command octet `0x22` (version 2, unknown command) and on
`0x11` (version 1). -/
theorem unknown_command_unsupported_witness :
    fresh (connOf [badCommandExample] true) ∧
      (scanProxyData (connOf [badCommandExample] true)).1 = some Error.ErrUnsupportedProto ∧
      (scanProxyData (connOf [v2sig ++ [0x11, 0x11, 0x00, 0x00]] true)).1 =
        some Error.ErrUnsupportedProto :=
  ⟨by decide,
    (unknown_command_unsupported (connOf [badCommandExample] true) 0x22 0x11 0x00 0x00
      [0x47] (by decide) (by decide) (by decide) (by decide)).1,
    (unknown_command_unsupported (connOf [v2sig ++ [0x11, 0x11, 0x00, 0x00]] true)
      0x11 0x11 0x00 0x00 [] (by decide) (by decide) (by decide) (by decide)).1⟩

/-- C13, the code at a failing input: a fixed header with the command octet
`0x22`. The scan returns `ErrUnsupportedProto` and the connection is still
open: this branch alone returns a protocol error without closing. A stream
without signature leaves the connection open, as the claim says, and a
truncated header closes it. -/
theorem unsupported_proto_left_open :
    (scanProxyData (connOf [badCommandExample] true)).1 = some Error.ErrUnsupportedProto ∧
      (scanProxyData (connOf [badCommandExample] true)).2.Conn.closed = false ∧
      (scanProxyData (connOf [httpGet] true)).1 = none ∧
      (scanProxyData (connOf [httpGet] true)).2.Conn.closed = false ∧
      (scanProxyData (connOf [truncatedExample] true)).2.Conn.closed = true := by
  decide

/-! ## After a failed scan -/

theorem NetConn.Read_shut (k : Nat) {rd : NetConn} (h : rd.closed = true) :
    rd.Read k = (([], some Error.ErrClosed), rd) := by
  unfold NetConn.Read
  rw [if_pos h]

theorem Reader.Read_closed {k : Nat} {b : Reader} {rd : NetConn} (hk : 0 < k)
    (hc : rd.closed = true) (hb : b.buf = []) (he : b.err = none) :
    (Reader.Read k b rd).1 = ([], some Error.ErrClosed) := by
  have hk0 : k ≠ 0 := by omega
  unfold Reader.Read
  rw [if_neg hk0, if_pos hb, he]
  dsimp only
  split
  · rw [NetConn.Read_shut k hc]
  · rw [NetConn.Read_shut defaultBufSize hc]
    rfl

/-- C14, as stated, fails: on a fixed header with the command octet `0x22`
followed by the payload `G`, the first `Read` returns no byte and
`ErrUnsupportedProto`; the second `Read` returns `G` without error, and a
later `RemoteAddr` returns the peer address, not nil. -/
theorem failed_scan_forgotten :
    (calls [Call.read 16, Call.read 16, Call.remoteAddr]
      (connOf [badCommandExample] true)).1 =
      [Reply.bytes [] (some Error.ErrUnsupportedProto), Reply.bytes [0x47] none,
        Reply.addr (some { IP := [192, 0, 2, 7], Port := 40000, Zone := "" })] := by
  decide

/-- C14, amended: when the scan fails with `e` on the first call, that call
reports it (`Read`: no byte and `e`; `RemoteAddr`: nil) and the gate has
fired; the failure is not recorded. A later `Read` is a read of the buffered
reader on the connection as the scan left it, which fails with the error of a
closed connection when the scan closed it and nothing is buffered; a later
`RemoteAddr` returns the recorded source address if there is one and the
connection is trusted, the peer address otherwise, never nil. -/
theorem failed_scan_first_call_only (c : Conn) (e : Error) (k k2 : Nat)
    (hon : c.once = false) (hfail : (scanProxyData c).1 = some e) :
    (Read k c).1 = ([], some e) ∧ (RemoteAddr c).1 = none ∧
      (Read k c).2 = { (scanProxyData c).2 with once := true } ∧
      (RemoteAddr c).2 = { (scanProxyData c).2 with once := true } ∧
      (Read k2 { (scanProxyData c).2 with once := true }).1 =
        (Reader.Read k2 (scanProxyData c).2.Reader (scanProxyData c).2.Conn).1 ∧
      (RemoteAddr { (scanProxyData c).2 with once := true }).1 =
        (if (scanProxyData c).2.srcAddr ≠ none ∧ c.useRemoteAddress = true
          then (scanProxyData c).2.srcAddr else some c.Conn.remoteAddr) ∧
      (RemoteAddr { (scanProxyData c).2 with once := true }).1 ≠ none ∧
      (0 < k2 → (scanProxyData c).2.Conn.closed = true →
        (scanProxyData c).2.Reader.buf = [] → (scanProxyData c).2.Reader.err = none →
        (Read k2 { (scanProxyData c).2 with once := true }).1 =
          ([], some Error.ErrClosed)) := by
  obtain ⟨f1, _, _, f4, _, _⟩ := scan_frame c
  have hR : Read k c = (([], some e), { (scanProxyData c).2 with once := true }) := by
    unfold Read
    rw [onceDo_first hon]
    dsimp only
    rw [hfail]
  have hA : RemoteAddr c = (none, { (scanProxyData c).2 with once := true }) := by
    unfold RemoteAddr
    rw [onceDo_first hon]
    dsimp only
    rw [hfail]
  have hR2 : (Read k2 { (scanProxyData c).2 with once := true }).1 =
      (Reader.Read k2 (scanProxyData c).2.Reader (scanProxyData c).2.Conn).1 := by
    rw [@Read_done { (scanProxyData c).2 with once := true } k2 rfl]
  have hA2 : (RemoteAddr { (scanProxyData c).2 with once := true }).1 =
      (if (scanProxyData c).2.srcAddr ≠ none ∧ c.useRemoteAddress = true
        then (scanProxyData c).2.srcAddr else some c.Conn.remoteAddr) := by
    rw [@RemoteAddr_done { (scanProxyData c).2 with once := true } rfl]
    dsimp only
    rw [f1, f4]
  refine ⟨by rw [hR], by rw [hA], by rw [hR], by rw [hA], hR2, hA2, ?_, ?_⟩
  · rw [hA2]
    split
    · rename_i hc
      exact hc.1
    · simp
  · intro hk hc hb he
    rw [hR2]
    exact Reader.Read_closed hk hc hb he

/-- C14, amended, on the truncated header: the first `Read` reports the raw
error of the scan, the second fails on the closed connection. -/
theorem failed_scan_first_call_only_witness :
    (connOf [truncatedExample] true).once = false ∧
      (scanProxyData (connOf [truncatedExample] true)).1 = some Error.ErrUnexpectedEOF ∧
      (Read 16 (connOf [truncatedExample] true)).1 = ([], some Error.ErrUnexpectedEOF) ∧
      (Read 16 { (scanProxyData (connOf [truncatedExample] true)).2 with once := true }).1 =
        ([], some Error.ErrClosed) :=
  have h := failed_scan_first_call_only (connOf [truncatedExample] true)
    Error.ErrUnexpectedEOF 16 16 (by decide) (by decide)
  ⟨by decide, by decide, h.1,
    h.2.2.2.2.2.2.2 (by decide) (by decide) (by decide) (by decide)⟩

/-! ## One scan for a sequence of calls -/

/-- C15: for every connection whose gate has not fired and every sequence of
`Read` and `RemoteAddr` calls, the first call runs the scan and then answers
from the scanned connection (or reports the failure of the scan); no later
call runs it: each is the body of the call below the gate. At the end the
recorded addresses are those the scan left, and the bytes handed to the caller
followed by the bytes still pending are exactly what the scan left pending, so
no later call consumes a byte that it does not deliver. -/
theorem scan_runs_once (c : Conn) (x : Call) (xs : List Call) (hon : c.once = false) :
    (call x c =
        match (scanProxyData c).1 with
        | some e => (failedReply x e, { (scanProxyData c).2 with once := true })
        | none => plainCall x { (scanProxyData c).2 with once := true }) ∧
      calls xs (call x c).2 = plainCalls xs (call x c).2 ∧
      (calls (x :: xs) c).2.once = true ∧
      (calls (x :: xs) c).2.srcAddr = (scanProxyData c).2.srcAddr ∧
      (calls (x :: xs) c).2.dstAddr = (scanProxyData c).2.dstAddr ∧
      delivered (calls (x :: xs) c).1 ++ pending (calls (x :: xs) c).2 =
        pending (scanProxyData c).2 := by
  have hfirst := call_first x hon
  have hstate : (call x c).2.once = true ∧
      (call x c).2.srcAddr = (scanProxyData c).2.srcAddr ∧
      (call x c).2.dstAddr = (scanProxyData c).2.dstAddr ∧
      delivered [(call x c).1] ++ pending (call x c).2 = pending (scanProxyData c).2 := by
    rw [hfirst]
    cases (scanProxyData c).1 with
    | some e =>
      dsimp only
      refine ⟨rfl, rfl, rfl, ?_⟩
      cases x <;> rfl
    | none =>
      dsimp only
      obtain ⟨k1, k2, k3, _⟩ := plainCall_keeps x { (scanProxyData c).2 with once := true }
      exact ⟨k1, k2, k3, plainCall_conserve x _⟩
  obtain ⟨s1, s2, s3, s4⟩ := hstate
  have hrest := calls_done xs s1
  obtain ⟨k1, k2, k3, _⟩ := plainCalls_keeps xs (call x c).2
  have hcons := plainCalls_conserve xs (call x c).2
  have hunf : calls (x :: xs) c =
      ((call x c).1 :: (calls xs (call x c).2).1, (calls xs (call x c).2).2) := rfl
  rw [hunf, hrest]
  dsimp only
  refine ⟨hfirst, rfl, k1.trans s1, k2.trans s2, k3.trans s3, ?_⟩
  rw [delivered_cons, List.append_assoc, hcons, s4]

/-- C15 on two consecutive headers before the request line: the addresses are
those of the first header, and the second header comes out as payload in
front of the request line. -/
theorem scan_runs_once_witness :
    (connOf [twoHeadersExample] true).once = false ∧
      (calls [Call.read 4096, Call.remoteAddr, Call.read 4096]
        (connOf [twoHeadersExample] true)).1 =
        [Reply.bytes (secondHeader ++ httpGet) none,
          Reply.addr (some { IP := [10, 0, 0, 5], Port := 1234, Zone := "" }),
          Reply.bytes [] (some Error.EOF)] ∧
      (calls [Call.read 4096, Call.remoteAddr, Call.read 4096]
        (connOf [twoHeadersExample] true)).2.srcAddr =
        some { IP := [10, 0, 0, 5], Port := 1234, Zone := "" } ∧
      (calls [Call.read 4096, Call.remoteAddr, Call.read 4096]
        (connOf [twoHeadersExample] true)).2.dstAddr =
        some { IP := [10, 0, 0, 1], Port := 80, Zone := "" } :=
  have h := scan_runs_once (connOf [twoHeadersExample] true) (Call.read 4096)
    [Call.remoteAddr, Call.read 4096] (by decide)
  ⟨by decide, by decide, h.2.2.2.1.trans (by decide), h.2.2.2.2.1.trans (by decide)⟩

/-! ## The header deadline -/

/-- C16, the code at a failing input: a listener timeout of 300 at clock
reading 1000, no deadline set before; the 28-byte header arrives at once, the
request line in a later segment. The scan returns no error and has read the
header only; the read deadline is then 1300 and is still 1300 after the first
`Read` of the payload: it is neither cleared nor back to none, so a payload
`Read` that is still waiting at time 1600 fails with a timeout, which it would
not have done before the scan. -/
theorem deadline_outlives_scan :
    (timedConnOf [tcp4Header, httpGet] 300).Conn.readDeadline = none ∧
      (timedConnOf [tcp4Header, httpGet] 300).Conn.timesOutAt 1600 = false ∧
      (scanProxyData (timedConnOf [tcp4Header, httpGet] 300)).1 = none ∧
      (scanProxyData (timedConnOf [tcp4Header, httpGet] 300)).2.Conn.incoming = [httpGet] ∧
      (scanProxyData (timedConnOf [tcp4Header, httpGet] 300)).2.Conn.readDeadline =
        some 1300 ∧
      (scanProxyData (timedConnOf [tcp4Header, httpGet] 300)).2.Conn.timesOutAt 1600 =
        true ∧
      (Read 16 (timedConnOf [tcp4Header, httpGet] 300)).2.Conn.readDeadline = some 1300 := by
  decide

/-- The read deadline on every connection, whatever the stream holds: with a
non-zero timeout the scan sets it to the clock reading plus the timeout and
nothing clears or restores it, so that is the deadline once the scan has
returned and still after the first `Read`; with a zero timeout the scan never
sets a read deadline, the one of before stays. -/
theorem deadline_set_not_restored (c : Conn) (k : Nat) (hon : c.once = false) :
    (c.readTimeout ≠ 0 →
        (scanProxyData c).2.Conn.readDeadline = some (c.Conn.now + c.readTimeout) ∧
        (Read k c).2.Conn.readDeadline = some (c.Conn.now + c.readTimeout)) ∧
      (c.readTimeout = 0 →
        (scanProxyData c).2.Conn.readDeadline = c.Conn.readDeadline ∧
        (Read k c).2.Conn.readDeadline = c.Conn.readDeadline) := by
  have hd := scan_deadline c
  have hread : (Read k c).2.Conn.readDeadline = (scanProxyData c).2.Conn.readDeadline := by
    unfold Read
    rw [onceDo_first hon]
    dsimp only
    cases (scanProxyData c).1 with
    | some e => rfl
    | none =>
      dsimp only
      exact (Reader.Read_sameLink k (scanProxyData c).2.Reader (scanProxyData c).2.Conn).2.2.1
  constructor
  · intro ht
    rw [if_pos ht] at hd
    exact ⟨hd, hread.trans hd⟩
  · intro ht
    rw [if_neg (not_not.mpr ht)] at hd
    exact ⟨hd, hread.trans hd⟩

/-! ## Streams shorter than the signature -/

/-- C17, as stated, fails: on the three bytes `GET` followed by end of input
the scan returns `io.EOF`, and the first `Read` returns no byte and that
error. -/
theorem short_stream_reports_eof :
    (scanProxyData (connOf [[0x47, 0x45, 0x54]] true)).1 = some Error.EOF ∧
      (Read 16 (connOf [[0x47, 0x45, 0x54]] true)).1 = ([], some Error.EOF) := by
  decide

/-- C17, amended: on a connection from `Accept` whose stream ends before 12
bytes, `Peek` comes back with the terminal error of the transport (never with
`ErrBufferFull`, the buffer has 4096 bytes), and the scan returns that error;
it consumes nothing, records nothing and leaves the connection open. The
first `Read` returns no byte and that error; the reads after it deliver the
bytes of the stream, in order. -/
theorem short_stream_error (c : Conn) (k k2 fuel : Nat) (hf : fresh c)
    (hlen : c.Conn.incoming.flatten.length < 12)
    (hfin : c.Conn.final ≠ Error.ErrBufferFull) (hk : 0 < k2)
    (hfuel : c.Conn.incoming.flatten.length < fuel) :
    (scanProxyData c).1 = some c.Conn.final ∧
      pending (scanProxyData c).2 = c.Conn.incoming.flatten ∧
      (scanProxyData c).2.srcAddr = none ∧ (scanProxyData c).2.dstAddr = none ∧
      (scanProxyData c).2.Conn.closed = false ∧
      (Read k c).1 = ([], some c.Conn.final) ∧
      (readAll k2 fuel (Read k c).2).1 = (c.Conn.incoming.flatten, some c.Conn.final) := by
  obtain ⟨h1, h2, h3⟩ := scan_short (fresh_ready hf) hlen hfin
  obtain ⟨s1, s2, _, _, _, s6, _, _, _⟩ := h3
  obtain ⟨_, _, hsrc, hdst, hon⟩ := hf
  have hR : Read k c = (([], some c.Conn.final), { (scanProxyData c).2 with once := true }) := by
    unfold Read
    rw [onceDo_first hon]
    dsimp only
    rw [h1]
  refine ⟨h1, h2.2.2, s1.trans hsrc, s2.trans hdst, h2.1, by rw [hR], ?_⟩
  rw [hR]
  dsimp only
  rw [@readAll_ready k2 fuel { (scanProxyData c).2 with once := true } _ hk rfl h2 hfuel]
  dsimp only
  rw [s6]

/-- C17, amended, on the three bytes `GET`. -/
theorem short_stream_error_witness :
    fresh (connOf [[0x47, 0x45, 0x54]] true) ∧
      (scanProxyData (connOf [[0x47, 0x45, 0x54]] true)).1 = some Error.EOF ∧
      (readAll 16 4 (Read 16 (connOf [[0x47, 0x45, 0x54]] true)).2).1 =
        ([0x47, 0x45, 0x54], some Error.EOF) :=
  have h := short_stream_error (connOf [[0x47, 0x45, 0x54]] true) 16 16 4 (by decide)
    (by decide) (by decide) (by decide) (by decide)
  ⟨by decide, h.1, h.2.2.2.2.2.2⟩

/-! ## Decoding of a TCP over IPv6 header -/

/-- C18: on a connection from `Accept` whose stream starts with the signature,
`verCmd = 0x21`, `fam = 0x21`, any two length octets and 36 further octets
`a`, the scan returns no error, consumes the fixed header and the address
block, and records the source address `a[0..15]` with port
`256 * a[32] + a[33]` and the destination address `a[16..31]` with port
`256 * a[34] + a[35]`. -/
theorem scan_tcp6_decodes (c : Conn) (l1 l2 : Byte) (a rest : List Byte) (hf : fresh c)
    (hs : c.Conn.incoming.flatten = v2sig ++ [0x21, 0x21, l1, l2] ++ a ++ rest)
    (ha : a.length = 36) :
    (scanProxyData c).1 = none ∧ pending (scanProxyData c).2 = rest ∧
      (scanProxyData c).2.srcAddr =
        some { IP := a.take 16, Port := 256 * (a.getD 32 0).val + (a.getD 33 0).val,
               Zone := "" } ∧
      (scanProxyData c).2.dstAddr =
        some { IP := (a.drop 16).take 16,
               Port := 256 * (a.getD 34 0).val + (a.getD 35 0).val, Zone := "" } := by
  have hr := fresh_ready hf
  rw [hs] at hr
  have hshape : v2sig ++ [0x21, 0x21, l1, l2] ++ a ++ rest =
      v2sig ++ 0x21 :: 0x21 :: l1 :: l2 :: (a ++ rest) := by
    simp only [List.append_assoc, List.cons_append, List.nil_append]
  rw [hshape] at hr
  obtain ⟨h1, h2, h3, h4, _⟩ := scan_ip6_path hr ha
  exact ⟨h1, h2.2.2, h3, h4⟩

/-- C18 on `2001:db8::5` port 1234 to `2001:db8::1` port 80. -/
theorem scan_tcp6_decodes_witness :
    fresh (connOf [tcp6Example] true) ∧
      (scanProxyData (connOf [tcp6Example] true)).1 = none ∧
      pending (scanProxyData (connOf [tcp6Example] true)).2 = httpGet ∧
      (scanProxyData (connOf [tcp6Example] true)).2.srcAddr =
        some { IP := [0x20, 0x01, 0x0d, 0xb8, 0, 0, 0, 0, 0, 0, 0, 0, 0, 0, 0, 5],
               Port := 1234, Zone := "" } ∧
      (scanProxyData (connOf [tcp6Example] true)).2.dstAddr =
        some { IP := [0x20, 0x01, 0x0d, 0xb8, 0, 0, 0, 0, 0, 0, 0, 0, 0, 0, 0, 1],
               Port := 80, Zone := "" } :=
  have h := scan_tcp6_decodes (connOf [tcp6Example] true) 0x00 0x24
    ([0x20, 0x01, 0x0d, 0xb8, 0, 0, 0, 0, 0, 0, 0, 0, 0, 0, 0, 5] ++
      [0x20, 0x01, 0x0d, 0xb8, 0, 0, 0, 0, 0, 0, 0, 0, 0, 0, 0, 1] ++
      [0x04, 0xD2, 0x00, 0x50]) httpGet (by decide) (by decide) (by decide)
  ⟨by decide, h.1, h.2.1, h.2.2.1.trans (by decide), h.2.2.2.trans (by decide)⟩

/-! ## The family octet -/

/-- C20, as stated, fails: two streams that differ only in the low nibble of
the family octet, `0x11` and `0x12`, each with 12 address octets. The scan
returns no error on both, but it records the addresses on the first and none
on the second. -/
theorem low_nibble_matters :
    (scanProxyData (connOf [v2sig ++ [0x21, 0x11, 0x00, 0x0C] ++
        [10, 0, 0, 5, 10, 0, 0, 1, 0x04, 0xD2, 0x00, 0x50]] true)).1 = none ∧
      (scanProxyData (connOf [v2sig ++ [0x21, 0x12, 0x00, 0x0C] ++
        [10, 0, 0, 5, 10, 0, 0, 1, 0x04, 0xD2, 0x00, 0x50]] true)).1 = none ∧
      (scanProxyData (connOf [v2sig ++ [0x21, 0x11, 0x00, 0x0C] ++
        [10, 0, 0, 5, 10, 0, 0, 1, 0x04, 0xD2, 0x00, 0x50]] true)).2.srcAddr =
        some { IP := [10, 0, 0, 5], Port := 1234, Zone := "" } ∧
      (scanProxyData (connOf [v2sig ++ [0x21, 0x12, 0x00, 0x0C] ++
        [10, 0, 0, 5, 10, 0, 0, 1, 0x04, 0xD2, 0x00, 0x50]] true)).2.srcAddr = none := by
  decide

/-- C20, amended: the decoding of a PROXY header depends on the whole family
octet. On a connection from `Accept`, when that octet is neither `0x11` nor
`0x21`, a value with the same high nibble such as `0x12` or `0x22` included,
the scan records no address, and it returns no error or
`ErrMalformedProxyHeader`. -/
theorem other_family_records_nothing (c : Conn) (fam l1 l2 : Byte) (rest : List Byte)
    (hf : fresh c) (hs : c.Conn.incoming.flatten = v2sig ++ [0x21, fam, l1, l2] ++ rest)
    (h11 : fam ≠ 0x11) (h21 : fam ≠ 0x21) :
    ((scanProxyData c).1 = none ∨
        (scanProxyData c).1 = some Error.ErrMalformedProxyHeader) ∧
      (scanProxyData c).2.srcAddr = none ∧ (scanProxyData c).2.dstAddr = none := by
  have hr := fresh_ready hf
  rw [hs] at hr
  have hshape : v2sig ++ [0x21, fam, l1, l2] ++ rest =
      v2sig ++ 0x21 :: fam :: l1 :: l2 :: rest := by
    simp only [List.append_assoc, List.cons_append, List.nil_append]
  rw [hshape] at hr
  obtain ⟨h1, h2, h3⟩ := scan_other_family_path hr h11 h21
  exact ⟨h1, h2.trans hf.2.2.1, h3.trans hf.2.2.2.1⟩

/-- C20, amended, on the family octet `0x12`. -/
theorem other_family_records_nothing_witness :
    fresh (connOf [v2sig ++ [0x21, 0x12, 0x00, 0x0C] ++
        [10, 0, 0, 5, 10, 0, 0, 1, 0x04, 0xD2, 0x00, 0x50]] true) ∧
      (scanProxyData (connOf [v2sig ++ [0x21, 0x12, 0x00, 0x0C] ++
        [10, 0, 0, 5, 10, 0, 0, 1, 0x04, 0xD2, 0x00, 0x50]] true)).2.srcAddr = none ∧
      (scanProxyData (connOf [v2sig ++ [0x21, 0x12, 0x00, 0x0C] ++
        [10, 0, 0, 5, 10, 0, 0, 1, 0x04, 0xD2, 0x00, 0x50]] true)).2.dstAddr = none :=
  have h := other_family_records_nothing (connOf [v2sig ++ [0x21, 0x12, 0x00, 0x0C] ++
        [10, 0, 0, 5, 10, 0, 0, 1, 0x04, 0xD2, 0x00, 0x50]] true) 0x12 0x00 0x0C
    [10, 0, 0, 5, 10, 0, 0, 1, 0x04, 0xD2, 0x00, 0x50] (by decide) (by decide) (by decide)
    (by decide)
  ⟨by decide, h.2.1, h.2.2⟩

end Proxiedhttp
